import Mathlib

/-!
# Tiled Cholesky helpers (`apps/choleskey/matrixutil.hpp`)

A shallow embedding of the helper routines of the tiled Cholesky benchmark:
the tile splitter and assembler, the result verifier, the generator of
symmetric positive-definite test matrices and the Pascal-matrix generator,
followed by the properties proved about them.

Conventions of the embedding.

* A C buffer (`data_type*`) is a `List`; reading or writing outside the buffer
  has no defined result, which the embedding renders as `none`.
* C `int` values are integers (`Int`) kept inside the 32-bit range: every
  product and sum of the index expressions of `split_into_tiles` and
  `assemble_tiles` goes through `int32`, which has no result on overflow
  (signed overflow is undefined in C++); `/` and `%` are truncating division
  (`Int.tdiv`, `Int.tmod`). `size_t` values are naturals.
* `data_type = double` is rendered by exact arithmetic in a linearly ordered
  field `K` (for instance `ℚ`, which is executable, or `ℝ`).
* A `for` loop is `forLoop`, threading the mutated buffers as explicit state.
-/

namespace MatrixUtil

/-! ## Buffers and loops -/

/-- Value of `xs[i]` for a C offset `i`; no value outside the buffer. -/
def readAt {α : Type} (xs : List α) (i : Int) : Option α :=
  if 0 ≤ i then xs[i.toNat]? else none

/-- Effect of `xs[i] = v` for a C offset `i`; no result outside the buffer. -/
def writeAt {α : Type} (xs : List α) (i : Int) (v : α) : Option (List α) :=
  if 0 ≤ i ∧ i.toNat < xs.length then some (xs.set i.toNat v) else none

/-- Value of `matrix_split[tile][k]`, reading through the array of tile buffers. -/
def readTile {α : Type} (matrix_split : List (List α)) (tile k : Int) : Option α :=
  (readAt matrix_split tile).bind fun buf => readAt buf k

/-- Effect of `matrix_split[tile][k] = v`: the buffer of tile `tile` is updated in place. -/
def writeTile {α : Type} (matrix_split : List (List α)) (tile k : Int) (v : α) :
    Option (List (List α)) :=
  (readAt matrix_split tile).bind fun buf =>
    (writeAt buf k v).bind fun buf' => writeAt matrix_split tile buf'

/-- The loop `for (i = lo; i < lo + count; ++i) body(i)` over a state `σ`:
iterations run in increasing order of `i`, and a failing iteration aborts the loop. -/
def forLoop {σ : Type} (lo : Nat) (body : Nat → σ → Option σ) : Nat → σ → Option σ
  | 0, s => some s
  | count + 1, s => (forLoop lo body count s).bind (body (lo + count))

/-! ## C `int` arithmetic -/

/-- Largest value of the (32-bit) C `int`. -/
def INT_MAX : Int := 2147483647

/-- Smallest value of the (32-bit) C `int`. -/
def INT_MIN : Int := -2147483648

/-- Result of a C `int` operation whose exact value is `v`: the value itself when it is
representable in `int`, and no result otherwise (signed overflow is undefined in C++). -/
def int32 (v : Int) : Option Int :=
  if INT_MIN ≤ v ∧ v ≤ INT_MAX then some v else none

/-- The C `int` expression `i * n + j`. -/
def int_mul_add (i n j : Int) : Option Int :=
  (int32 (i * n)).bind fun p => int32 (p + j)

/-- The C `int` expression `offset_tile + i * size + j`, the index at which
`split_into_tiles` reads the source matrix. -/
def src_index (offset i size j : Int) : Option Int :=
  (int32 (i * size)).bind fun p => (int32 (offset + p)).bind fun q => int32 (q + j)

/-! ## Tile splitter and assembler -/

/-- The value `offset_tile` computed by `split_into_tiles` for tile `i_tile`, in C `int`
arithmetic: the products and the sum are formed in the order of the source expression. -/
def offset_tile (num_tiles tile_size : Int) (layRow : Bool) (i_tile : Int) : Option Int :=
  if layRow then
    (int32 (i_tile.tdiv num_tiles * num_tiles)).bind fun a =>
      (int32 (a * tile_size)).bind fun b =>
        (int32 (b * tile_size)).bind fun c =>
          (int32 (i_tile.tmod num_tiles * tile_size)).bind fun d => int32 (c + d)
  else
    (int32 (i_tile.tmod num_tiles * num_tiles)).bind fun a =>
      (int32 (a * tile_size)).bind fun b =>
        (int32 (b * tile_size)).bind fun c =>
          (int32 (i_tile.tdiv num_tiles * tile_size)).bind fun d => int32 (c + d)

/-- Embedding of `split_into_tiles`: `matrix_split` is the caller's array of
pre-allocated tile buffers, returned with every tile filled. All index expressions are
C `int` expressions. -/
def split_into_tiles {α : Type} (matrix : List α) (matrix_split : List (List α))
    (num_tiles tile_size size : Int) (layRow : Bool) : Option (List (List α)) :=
  (int32 (num_tiles * num_tiles)).bind fun total_num_tiles =>
    forLoop 0 (fun i_tile ms =>
      (offset_tile num_tiles tile_size layRow i_tile).bind fun offset =>
        forLoop 0 (fun i ms =>
          forLoop 0 (fun j ms =>
            (int_mul_add i tile_size j).bind fun dst =>
              (src_index offset i size j).bind fun src =>
                (readAt matrix src).bind fun v => writeTile ms i_tile dst v)
            tile_size.toNat ms)
          tile_size.toNat ms)
      total_num_tiles.toNat matrix_split

/-- Embedding of `assemble_tiles`: `matrix` is the caller's destination buffer,
returned with every element overwritten from the tiles. The first statement of the loop
body divides by `tile_size`, which has no defined result when `tile_size` is zero. All
index expressions are C `int` expressions. -/
def assemble_tiles {α : Type} (matrix_split : List (List α)) (matrix : List α)
    (num_tiles tile_size size : Int) (layRow : Bool) : Option (List α) :=
  forLoop 0 (fun i m =>
    if tile_size = 0 then none else
    let i_local := (i : Int).tmod tile_size
    let i_tile := (i : Int).tdiv tile_size
    forLoop 0 (fun j m =>
      let j_tile := (j : Int).tdiv tile_size
      (if layRow then int_mul_add i_tile num_tiles j_tile
        else int_mul_add j_tile num_tiles i_tile).bind fun tile =>
        let j_local := (j : Int).tmod tile_size
        (int_mul_add i size j).bind fun dst =>
          (int_mul_add i_local tile_size j_local).bind fun k =>
            (readTile matrix_split tile k).bind fun v => writeAt m dst v)
      size.toNat m)
    size.toNat matrix

/-! ## Result verifier -/

/-- The scan of `verify_results` from index `i` with `remaining` iterations left.
The result is the returned flag together with the diagnostic printed at the
failing index (index, reference value, actual value), if any. -/
def verify_scan {K : Type} [LinearOrderedField K] (lower_res dporft_res : List K) :
    Nat → Int → Option (Bool × Option (Int × K × K))
  | 0, _ => some (true, none)
  | remaining + 1, i =>
    (readAt dporft_res i).bind fun ref =>
      (readAt lower_res i).bind fun actual =>
        let diff := ref - actual
        let diff := if |ref| > 1e-5 then diff / ref else diff
        let diff := |diff|
        if diff > 1.0e-5 then some (false, some (i, ref, actual))
        else verify_scan lower_res dporft_res remaining (i + 1)

/-- Embedding of `verify_results`: the loop `for (i = 0; i < totalsize; ++i)` with its `break`. -/
def verify_results {K : Type} [LinearOrderedField K] (lower_res dporft_res : List K)
    (totalsize : Int) : Option (Bool × Option (Int × K × K)) :=
  verify_scan lower_res dporft_res totalsize.toNat 0

/-! ## Generator of symmetric positive-definite matrices -/

/-- The fill loop of `generate_positiveDefinitionMatrix`: the state is the buffer
`A_matrix` and the number of calls made to `rand_r` so far; `draw k` is the value of
`(data_type)rand_r(&seeds) / RAND_MAX` at call number `k`. -/
def fill_symmetric {K : Type} (draw : Nat → K) (matrix_size : Nat) (A_matrix : List K) :
    Option (List K × Nat) :=
  forLoop 0 (fun row st =>
    forLoop row (fun col st =>
      let v := draw st.2
      (writeAt st.1 ((row : Int) * matrix_size + col) v).bind fun A =>
        (writeAt A ((col : Int) * matrix_size + row) v).bind fun A => some (A, st.2 + 1))
      (matrix_size - row) st)
    matrix_size (A_matrix, 0)

/-- The value `(data_type)rand_r(&seeds) / RAND_MAX` stored by the fill loop when the call
of `rand_r` returns `raw`. `RAND_MAX` is the constant of the C library (`<stdlib.h>`), taken
as a parameter; `rand_r` returns an integer between `0` and `RAND_MAX`, both included. -/
def rand_unit {K : Type} [LinearOrderedField K] (RAND_MAX raw : Int) : K :=
  (raw : K) / (RAND_MAX : K)

/-! ## Pascal matrix -/

/-- Embedding of `generate_pascal_matrix<T>`. The matrix is a vector of `n` rows of `n`
zeros, read and written through `matrix[i][j]`; constructing a vector of negative size has no
result. The second loop appends the rows, in order, to `flattenedVector`. -/
def generate_pascal_matrix {T : Type} [AddMonoidWithOne T] (n : Int) : Option (List T) :=
  if n < 0 then none else
  let matrix : List (List T) := List.replicate n.toNat (List.replicate n.toNat (0 : T))
  (forLoop 0 (fun i matrix =>
    forLoop 0 (fun j matrix =>
      if (i : Int) = 0 ∨ (j : Int) = 0 then writeTile matrix i j (1 : T)
      else
        (readTile matrix i ((j : Int) - 1)).bind fun left =>
          (readTile matrix ((i : Int) - 1) j).bind fun up =>
            writeTile matrix i j (left + up))
      n.toNat matrix)
    n.toNat matrix).bind fun matrix =>
  some (matrix.foldl (fun flattenedVector row => flattenedVector ++ row) [])

/-! ## Auxiliary definitions used in the statements and proofs -/

/-- Cell `k` of tile `t` of a tile grid, with natural-number indices. -/
def tileGet {α : Type} (ms : List (List α)) (t k : Nat) : Option α :=
  (ms[t]?).bind fun buf => buf[k]?

/-- The tile origin `offset_tile` on natural numbers. -/
def offNat (nt ts : Nat) (layRow : Bool) (t : Nat) : Nat :=
  if layRow then t / nt * nt * ts * ts + t % nt * ts else t % nt * nt * ts * ts + t / nt * ts

/-- Shape of a tile grid: `nt * nt` buffers of `ts * ts` elements each. -/
def GridShape {α : Type} (nt ts : Nat) (ms : List (List α)) : Prop :=
  ms.length = nt * nt ∧ ∀ t, t < nt * nt → ∃ buf, ms[t]? = some buf ∧ buf.length = ts * ts

/-- Invariant of the loops of `split_into_tiles`: the grid keeps its shape, and every
cell of a tile below `T`, and every cell below `c` of tile `T`, holds its source element. -/
def SplitInv {α : Type} (M : List α) (nt ts : Nat) (layRow : Bool) (T c : Nat)
    (ms : List (List α)) : Prop :=
  GridShape nt ts ms ∧
    ∀ t k, t < nt * nt → k < ts * ts → (t < T ∨ (t = T ∧ k < c)) →
      tileGet ms t k = M[offNat nt ts layRow t + k / ts * (nt * ts) + k % ts]?

/-- The tile cell that `assemble_tiles` copies into the destination offset `idx`. -/
def srcCell (nt ts : Nat) (layRow : Bool) (idx : Nat) : Nat × Nat :=
  let i := idx / (nt * ts)
  let j := idx % (nt * ts)
  (if layRow then i / ts * nt + j / ts else j / ts * nt + i / ts, i % ts * ts + j % ts)

/-- Invariant of the loops of `assemble_tiles`: the destination keeps its length and
its first `c` elements hold their tile cells. -/
def AssembleInv {α : Type} (G : List (List α)) (nt ts : Nat) (layRow : Bool) (c : Nat)
    (m : List α) : Prop :=
  m.length = nt * ts * (nt * ts) ∧
    ∀ idx, idx < c → m[idx]? = tileGet G (srcCell nt ts layRow idx).1 (srcCell nt ts layRow idx).2

/-- The quantity compared with the tolerance by one iteration of `verify_results`:
`diff = ref - actual`, divided by `ref` when `|ref| > 1e-5`, then `fabs`. -/
def scaledDiff {K : Type} [LinearOrderedField K] (ref actual : K) : K :=
  |if |ref| > 1e-5 then (ref - actual) / ref else ref - actual|

/-- The error measure `err(i)` in the words of the specification: the relative error
`|reference[i] - candidate[i]| / |reference[i]|` when `|reference[i]| > 1e-5`, and the
absolute error `|reference[i] - candidate[i]|` otherwise. -/
def err_spec {K : Type} [LinearOrderedField K] (candidate reference : List K) (i : Nat) : K :=
  if |reference.getD i 0| > 1e-5 then
    |reference.getD i 0 - candidate.getD i 0| / |reference.getD i 0|
  else |reference.getD i 0 - candidate.getD i 0|

/-- Invariant of the fill loops of `generate_positiveDefinitionMatrix`: `A_matrix` keeps its
length, and every upper-triangle cell `(r, c)` already visited (rows below `R`, and columns
below `C` of row `R`) and its mirror `(c, r)` hold one common value satisfying `Q`. -/
def FillInv {K : Type} (Q : K → Prop) (n R C : Nat) (st : List K × Nat) : Prop :=
  st.1.length = n * n ∧
    ∀ r c, c < n → r ≤ c → (r < R ∨ (r = R ∧ c < C)) →
      ∃ v, st.1[r * n + c]? = some v ∧ st.1[c * n + r]? = some v ∧ Q v

/-- Invariant of the loops of `split_into_tiles` for an arbitrary row length `size` of the
source matrix (not necessarily `nt * ts`): the grid keeps its shape, and every cell already
visited holds the element at the source offset the code reads for it. -/
def SplitInvAny {α : Type} (M : List α) (nt ts size : Nat) (layRow : Bool) (T c : Nat)
    (ms : List (List α)) : Prop :=
  GridShape nt ts ms ∧
    ∀ t k, t < nt * nt → k < ts * ts → (t < T ∨ (t = T ∧ k < c)) →
      tileGet ms t k = M[offNat nt ts layRow t + k / ts * size + k % ts]?

/-- Invariant of the loops of `generate_pascal_matrix`: the matrix keeps `n` rows of `n`
elements, and every cell already visited (rows below `I`, and columns below `J` of row `I`)
holds its binomial coefficient. -/
def PascalInv {T : Type} [AddMonoidWithOne T] (n I J : Nat) (ms : List (List T)) : Prop :=
  (ms.length = n ∧ ∀ row ∈ ms, row.length = n) ∧
    ∀ i j, i < n → j < n → (i < I ∨ (i = I ∧ j < J)) →
      tileGet ms i j = some (((i + j).choose i : Nat) : T)

/-! ## Loop and buffer lemmas -/

theorem forLoop_inv {σ : Type} (lo : Nat) (body : Nat → σ → Option σ) (P : Nat → σ → Prop) :
    ∀ (n : Nat) (s : σ), P 0 s →
      (∀ c, c < n → ∀ s, P c s → ∃ s', body (lo + c) s = some s' ∧ P (c + 1) s') →
      ∃ s', forLoop lo body n s = some s' ∧ P n s' := by
  intro n
  induction n with
  | zero => intro s h0 _; exact ⟨s, rfl, h0⟩
  | succ n ih =>
    intro s h0 hstep
    obtain ⟨s1, h1, hP1⟩ := ih s h0 (fun c hc => hstep c (Nat.lt_succ_of_lt hc))
    obtain ⟨s2, h2, hP2⟩ := hstep n (Nat.lt_succ_self n) s1 hP1
    exact ⟨s2, by simp [forLoop, h1, h2], hP2⟩

theorem readAt_natCast {α : Type} (xs : List α) (n : Nat) : readAt xs (n : Int) = xs[n]? := by
  simp [readAt]

theorem writeAt_natCast {α : Type} (xs : List α) (n : Nat) (v : α) (h : n < xs.length) :
    writeAt xs (n : Int) v = some (xs.set n v) := by
  simp [writeAt, h]

theorem lt_length_of_getElem?_eq_some {α : Type} {xs : List α} {n : Nat} {x : α}
    (h : xs[n]? = some x) : n < xs.length := by
  rcases Nat.lt_or_ge n xs.length with h1 | h1
  · exact h1
  · rw [List.getElem?_eq_none h1] at h; cases h

theorem readTile_natCast {α : Type} (ms : List (List α)) (t k : Nat) :
    readTile ms (t : Int) (k : Int) = tileGet ms t k := by
  simp [readTile, tileGet, readAt_natCast]

theorem writeTile_natCast {α : Type} (ms : List (List α)) (t k : Nat) (v : α) (buf : List α)
    (hbuf : ms[t]? = some buf) (hk : k < buf.length) :
    writeTile ms (t : Int) (k : Int) v = some (ms.set t (buf.set k v)) := by
  have ht : t < ms.length := lt_length_of_getElem?_eq_some hbuf
  simp [writeTile, readAt_natCast, hbuf, writeAt_natCast, hk, ht]

theorem tileGet_set {α : Type} (ms : List (List α)) (t k : Nat) (v : α) (buf : List α)
    (hbuf : ms[t]? = some buf) (hk : k < buf.length) (t' k' : Nat) :
    tileGet (ms.set t (buf.set k v)) t' k' =
      if t' = t ∧ k' = k then some v else tileGet ms t' k' := by
  have ht : t < ms.length := lt_length_of_getElem?_eq_some hbuf
  unfold tileGet
  by_cases h1 : t' = t
  · subst h1
    by_cases h2 : k' = k
    · subst h2
      simp [List.getElem?_set, ht, hk]
    · have h2' : k ≠ k' := fun h => h2 h.symm
      simp [List.getElem?_set, ht, h2, h2', hbuf]
  · have h1' : t ≠ t' := fun h => h1 h.symm
    simp [List.getElem?_set, h1, h1']

theorem gridShape_set {α : Type} (nt ts : Nat) (ms : List (List α)) (t k : Nat) (v : α)
    (buf : List α) (hbuf : ms[t]? = some buf) (hs : GridShape nt ts ms) :
    GridShape nt ts (ms.set t (buf.set k v)) := by
  have ht : t < ms.length := lt_length_of_getElem?_eq_some hbuf
  refine ⟨by simpa using hs.1, fun t' ht' => ?_⟩
  obtain ⟨b, hb, hlen⟩ := hs.2 t' ht'
  by_cases h : t = t'
  · subst h
    rw [hbuf] at hb
    cases hb
    exact ⟨buf.set k v, by simp [List.getElem?_set, ht], by simpa using hlen⟩
  · exact ⟨b, by simp [List.getElem?_set, h, hb], hlen⟩

theorem forLoop_none {σ : Type} (lo : Nat) (body : Nat → σ → Option σ) (n c : Nat) (hc : c < n)
    (hfail : ∀ s, body (lo + c) s = none) : ∀ s, forLoop lo body n s = none := by
  induction n with
  | zero => omega
  | succ n ih =>
    intro s
    rcases Nat.lt_or_ge c n with h | h
    · simp [forLoop, ih h s]
    · have hcn : c = n := by omega
      subst hcn
      cases hrun : forLoop lo body c s with
      | none => simp [forLoop, hrun]
      | some s1 => simp [forLoop, hrun, hfail s1]

/-! ## C `int` arithmetic: lemmas -/

theorem int32_natCast (n : Nat) (h : n ≤ 2147483647) : int32 (n : Int) = some (n : Int) := by
  unfold int32 INT_MIN INT_MAX
  rw [if_pos]
  omega

theorem int32_eq_some {v w : Int} (h : int32 v = some w) : w = v ∧ v ≤ 2147483647 := by
  unfold int32 INT_MIN INT_MAX at h
  split at h
  · cases h; omega
  · cases h

theorem int32_none {v : Int} (h : 2147483647 < v) : int32 v = none := by
  unfold int32 INT_MIN INT_MAX
  rw [if_neg]
  omega

theorem int_mul_add_natCast (a b c : Nat) (h : a * b + c ≤ 2147483647) :
    int_mul_add (a : Int) (b : Int) (c : Int) = some ((a * b + c : Nat) : Int) := by
  unfold int_mul_add
  have h1 : a * b ≤ 2147483647 := by omega
  have e1 : (a : Int) * (b : Int) = ((a * b : Nat) : Int) := by push_cast; ring
  have e2 : ((a * b : Nat) : Int) + (c : Int) = ((a * b + c : Nat) : Int) := by push_cast; ring
  rw [e1, int32_natCast _ h1]
  simp only [Option.some_bind]
  rw [e2, int32_natCast _ h]

theorem int_mul_add_eq_some {a b c w : Int} (h : int_mul_add a b c = some w) :
    w = a * b + c ∧ a * b + c ≤ 2147483647 := by
  unfold int_mul_add at h
  cases h1 : int32 (a * b) with
  | none => rw [h1] at h; cases h
  | some p =>
    rw [h1] at h
    simp only [Option.some_bind] at h
    have hp := int32_eq_some h1
    have hw := int32_eq_some h
    rw [hp.1] at hw
    exact hw

theorem src_index_natCast (o i s j : Nat) (h : o + i * s + j ≤ 2147483647) :
    src_index (o : Int) (i : Int) (s : Int) (j : Int) = some ((o + i * s + j : Nat) : Int) := by
  unfold src_index
  have h1 : i * s ≤ 2147483647 := by omega
  have h2 : o + i * s ≤ 2147483647 := by omega
  have e1 : (i : Int) * (s : Int) = ((i * s : Nat) : Int) := by push_cast; ring
  have e2 : (o : Int) + ((i * s : Nat) : Int) = ((o + i * s : Nat) : Int) := by push_cast; ring
  have e3 : ((o + i * s : Nat) : Int) + (j : Int) = ((o + i * s + j : Nat) : Int) := by
    push_cast; ring
  rw [e1, int32_natCast _ h1]
  simp only [Option.some_bind]
  rw [e2, int32_natCast _ h2]
  simp only [Option.some_bind]
  rw [e3, int32_natCast _ h]

theorem src_index_eq_some {o i s j w : Int} (h : src_index o i s j = some w) :
    w = o + i * s + j ∧ o + i * s + j ≤ 2147483647 := by
  unfold src_index at h
  cases h1 : int32 (i * s) with
  | none => rw [h1] at h; cases h
  | some p =>
    rw [h1] at h
    simp only [Option.some_bind] at h
    cases h2 : int32 (o + p) with
    | none => rw [h2] at h; cases h
    | some q =>
      rw [h2] at h
      simp only [Option.some_bind] at h
      have hp := int32_eq_some h1
      have hq := int32_eq_some h2
      have hw := int32_eq_some h
      rw [hq.1, hp.1] at hw
      exact hw

/-! ## Index arithmetic -/

theorem mul_add_lt_mul {row col rows width : Nat} (hrow : row < rows) (hcol : col < width) :
    row * width + col < rows * width := by
  have hle : (row + 1) * width ≤ rows * width := Nat.mul_le_mul_right width hrow
  have hexp : (row + 1) * width = row * width + width := by ring
  omega

theorem offNat_eq (nt ts : Nat) (layRow : Bool) (t : Nat) (i j : Nat) :
    offNat nt ts layRow t + i * (nt * ts) + j =
      ((if layRow then t / nt else t % nt) * ts + i) * (nt * ts) +
        ((if layRow then t % nt else t / nt) * ts + j) := by
  unfold offNat
  cases layRow <;> simp <;> ring

theorem offNat_lt (nt ts : Nat) (layRow : Bool) (t i j : Nat) (hnt : 0 < nt)
    (ht : t < nt * nt) (hi : i < ts) (hj : j < ts) :
    offNat nt ts layRow t + i * (nt * ts) + j < nt * ts * (nt * ts) := by
  have hdiv : t / nt < nt := Nat.div_lt_of_lt_mul ht
  have hmod : t % nt < nt := Nat.mod_lt _ hnt
  rw [offNat_eq]
  cases layRow
  · exact mul_add_lt_mul (mul_add_lt_mul hmod hi) (mul_add_lt_mul hdiv hj)
  · exact mul_add_lt_mul (mul_add_lt_mul hdiv hi) (mul_add_lt_mul hmod hj)

theorem offset_chain_natCast (q r nt ts : Nat) (hq : q * nt ≤ 2147483647)
    (hoff : q * nt * ts * ts + r * ts ≤ 2147483647) :
    ((int32 ((q : Int) * (nt : Int))).bind fun a =>
      (int32 (a * (ts : Int))).bind fun b =>
        (int32 (b * (ts : Int))).bind fun c =>
          (int32 ((r : Int) * (ts : Int))).bind fun d => int32 (c + d))
      = some ((q * nt * ts * ts + r * ts : Nat) : Int) := by
  have h2 : q * nt * ts ≤ 2147483647 := by
    rcases Nat.eq_zero_or_pos ts with h | h
    · subst h; simp
    · have : q * nt * ts ≤ q * nt * ts * ts := Nat.le_mul_of_pos_right _ h
      omega
  have h3 : q * nt * ts * ts ≤ 2147483647 := by omega
  have h4 : r * ts ≤ 2147483647 := by omega
  have e1 : (q : Int) * (nt : Int) = ((q * nt : Nat) : Int) := by push_cast; ring
  have e2 : ((q * nt : Nat) : Int) * (ts : Int) = ((q * nt * ts : Nat) : Int) := by
    push_cast; ring
  have e3 : ((q * nt * ts : Nat) : Int) * (ts : Int) = ((q * nt * ts * ts : Nat) : Int) := by
    push_cast; ring
  have e4 : (r : Int) * (ts : Int) = ((r * ts : Nat) : Int) := by push_cast; ring
  have e5 : ((q * nt * ts * ts : Nat) : Int) + ((r * ts : Nat) : Int)
      = ((q * nt * ts * ts + r * ts : Nat) : Int) := by push_cast; ring
  rw [e1, int32_natCast _ hq]
  simp only [Option.some_bind]
  rw [e2, int32_natCast _ h2]
  simp only [Option.some_bind]
  rw [e3, int32_natCast _ h3]
  simp only [Option.some_bind]
  rw [e4, int32_natCast _ h4]
  simp only [Option.some_bind]
  rw [e5, int32_natCast _ hoff]

theorem offset_chain_eq_some {q nt ts r w : Int}
    (h : ((int32 (q * nt)).bind fun a =>
      (int32 (a * ts)).bind fun b =>
        (int32 (b * ts)).bind fun c =>
          (int32 (r * ts)).bind fun d => int32 (c + d)) = some w) :
    w = q * nt * ts * ts + r * ts := by
  cases h1 : int32 (q * nt) with
  | none => rw [h1] at h; cases h
  | some a =>
    rw [h1] at h
    simp only [Option.some_bind] at h
    cases h2 : int32 (a * ts) with
    | none => rw [h2] at h; cases h
    | some b =>
      rw [h2] at h
      simp only [Option.some_bind] at h
      cases h3 : int32 (b * ts) with
      | none => rw [h3] at h; cases h
      | some c =>
        rw [h3] at h
        simp only [Option.some_bind] at h
        cases h4 : int32 (r * ts) with
        | none => rw [h4] at h; cases h
        | some d =>
          rw [h4] at h
          simp only [Option.some_bind] at h
          have ha := (int32_eq_some h1).1
          have hb := (int32_eq_some h2).1
          have hc := (int32_eq_some h3).1
          have hd := (int32_eq_some h4).1
          have hw := (int32_eq_some h).1
          rw [hw, hc, hb, ha, hd]

theorem offset_tile_natCast (nt ts : Nat) (layRow : Bool) (t : Nat)
    (hnn : nt * nt ≤ 2147483647) (ht : t < nt * nt)
    (hoff : offNat nt ts layRow t ≤ 2147483647) :
    offset_tile (nt : Int) (ts : Int) layRow (t : Int)
      = some ((offNat nt ts layRow t : Nat) : Int) := by
  have hnt : 0 < nt := by
    rcases Nat.eq_zero_or_pos nt with h | h
    · subst h; omega
    · exact h
  have hq : t / nt * nt ≤ 2147483647 := by
    have := Nat.div_mul_le_self t nt
    omega
  have hr : t % nt * nt ≤ 2147483647 := by
    have h1 : t % nt * nt ≤ nt * nt := Nat.mul_le_mul_right nt (Nat.le_of_lt (Nat.mod_lt _ hnt))
    omega
  unfold offset_tile
  unfold offNat at hoff ⊢
  cases layRow
  · simp only [Bool.false_eq_true, if_false] at hoff ⊢
    rw [← Int.ofNat_tdiv, ← Int.ofNat_tmod]
    exact offset_chain_natCast (t % nt) (t / nt) nt ts hr hoff
  · simp only [if_true] at hoff ⊢
    rw [← Int.ofNat_tdiv, ← Int.ofNat_tmod]
    exact offset_chain_natCast (t / nt) (t % nt) nt ts hq hoff

theorem offset_tile_eq_some (nt ts : Nat) (layRow : Bool) (t : Nat) {w : Int}
    (h : offset_tile (nt : Int) (ts : Int) layRow (t : Int) = some w) :
    w = ((offNat nt ts layRow t : Nat) : Int) := by
  unfold offset_tile at h
  unfold offNat
  cases layRow
  · simp only [Bool.false_eq_true, if_false] at h ⊢
    rw [offset_chain_eq_some h, ← Int.ofNat_tdiv, ← Int.ofNat_tmod]
    push_cast; ring
  · simp only [if_true] at h ⊢
    rw [offset_chain_eq_some h, ← Int.ofNat_tdiv, ← Int.ofNat_tmod]
    push_cast; ring

theorem div_add_div_mod (a b n : Nat) (hb : b < n) :
    (a * n + b) / n = a ∧ (a * n + b) % n = b := by
  have hn : 0 < n := by omega
  constructor
  · rw [Nat.add_comm, Nat.add_mul_div_right _ _ hn, Nat.div_eq_of_lt hb, Nat.zero_add]
  · rw [Nat.add_comm, Nat.add_mul_mod_self_right, Nat.mod_eq_of_lt hb]

theorem offNat_lt_any (nt ts size : Nat) (layRow : Bool) (t i j : Nat) (hnt : 0 < nt)
    (hsize : nt * ts ≤ size) (ht : t < nt * nt) (hi : i < ts) (hj : j < ts) :
    offNat nt ts layRow t + i * size + j < size * size := by
  have hdiv : t / nt < nt := Nat.div_lt_of_lt_mul ht
  have hmod : t % nt < nt := Nat.mod_lt _ hnt
  have key : ∀ R C, R < nt → C < nt →
      R * nt * ts * ts + C * ts + i * size + j < size * size := by
    intro R C hR hC
    have h1 : R * ts + i < nt * ts := mul_add_lt_mul hR hi
    have h2 : C * ts + j < nt * ts := mul_add_lt_mul hC hj
    have h3 : R * nt * ts * ts = R * ts * (nt * ts) := by ring
    have h4 : R * ts * (nt * ts) ≤ R * ts * size := Nat.mul_le_mul_left _ hsize
    have h5 : (R * ts + i) * size + (C * ts + j) < size * size :=
      mul_add_lt_mul (by omega) (by omega)
    have h6 : (R * ts + i) * size = R * ts * size + i * size := by ring
    omega
  unfold offNat
  cases layRow
  · simpa using key (t % nt) (t / nt) hmod hdiv
  · simpa using key (t / nt) (t % nt) hdiv hmod

theorem offNat_le_any (nt ts size : Nat) (layRow : Bool) (t : Nat) (hnt : 0 < nt)
    (hsize : nt * ts ≤ size) (ht : t < nt * nt) (hrange : size * size ≤ 2147483647) :
    offNat nt ts layRow t ≤ 2147483647 := by
  rcases Nat.eq_zero_or_pos ts with h | h
  · subst h
    unfold offNat
    cases layRow <;> simp
  · have := offNat_lt_any nt ts size layRow t 0 0 hnt hsize ht h h
    omega

/-! ## The splitter fills every tile -/

theorem split_step_any {α : Type} (M : List α) (nt ts size : Nat) (layRow : Bool) (hnt : 0 < nt)
    (hsize : nt * ts ≤ size) (hM : M.length = size * size)
    (hrange : size * size ≤ 2147483647) (T I J : Nat) (hT : T < nt * nt)
    (hI : I < ts) (hJ : J < ts) (ms : List (List α))
    (h : SplitInvAny M nt ts size layRow T (I * ts + J) ms) :
    ∃ ms', (int_mul_add (I : Int) (ts : Int) (J : Int)).bind
        (fun dst =>
          (src_index ((offNat nt ts layRow T : Nat) : Int) (I : Int) (size : Int) (J : Int)).bind
            fun src => (readAt M src).bind fun v => writeTile ms (T : Int) dst v) = some ms' ∧
      SplitInvAny M nt ts size layRow T (I * ts + J + 1) ms' := by
  obtain ⟨hshape, hcells⟩ := h
  obtain ⟨buf, hbuf, hlen⟩ := hshape.2 T hT
  have hofflt := offNat_lt_any nt ts size layRow T I J hnt hsize hT hI hJ
  have hoff : offNat nt ts layRow T + I * size + J < M.length := by rw [hM]; exact hofflt
  have hkk : I * ts + J < ts * ts := mul_add_lt_mul hI hJ
  have hk : I * ts + J < buf.length := by rw [hlen]; exact hkk
  have hts2 : ts * ts ≤ size * size := by
    have h1 : ts ≤ nt * ts := Nat.le_mul_of_pos_left ts hnt
    exact Nat.mul_le_mul (le_trans h1 hsize) (le_trans h1 hsize)
  rw [int_mul_add_natCast I ts J (by omega)]
  simp only [Option.some_bind]
  rw [src_index_natCast _ I size J (by omega)]
  simp only [Option.some_bind]
  rw [readAt_natCast, List.getElem?_eq_getElem hoff]
  simp only [Option.some_bind]
  rw [writeTile_natCast ms T (I * ts + J) _ buf hbuf hk]
  refine ⟨_, rfl, gridShape_set nt ts ms T _ _ buf hbuf hshape, ?_⟩
  intro t k ht hkk hdone
  rw [tileGet_set ms T (I * ts + J) _ buf hbuf hk]
  by_cases hc : t = T ∧ k = I * ts + J
  · obtain ⟨rfl, rfl⟩ := hc
    have hdm := div_add_div_mod I J ts hJ
    simp [hdm.1, hdm.2, List.getElem?_eq_getElem hoff]
  · rw [if_neg hc]
    apply hcells t k ht hkk
    rcases hdone with h1 | ⟨h1, h2⟩
    · exact Or.inl h1
    · refine Or.inr ⟨h1, ?_⟩
      have : k ≠ I * ts + J := fun h3 => hc ⟨h1, h3⟩
      omega

theorem split_spec_any {α : Type} (M : List α) (G0 : List (List α)) (nt ts size : Nat)
    (layRow : Bool) (hnt : 0 < nt) (hsize : nt * ts ≤ size) (hM : M.length = size * size)
    (hG0 : GridShape nt ts G0) (hnn : nt * nt ≤ 2147483647)
    (hrange : size * size ≤ 2147483647) :
    ∃ G, split_into_tiles M G0 (nt : Int) (ts : Int) (size : Int) layRow = some G ∧
      SplitInvAny M nt ts size layRow (nt * nt) 0 G := by
  unfold split_into_tiles
  have e0 : (nt : Int) * (nt : Int) = ((nt * nt : Nat) : Int) := by push_cast; ring
  rw [e0, int32_natCast _ hnn]
  simp only [Option.some_bind, Int.toNat_natCast]
  apply forLoop_inv 0 _ (fun T ms => SplitInvAny M nt ts size layRow T 0 ms)
  · exact ⟨hG0, fun t k _ _ hd => by omega⟩
  · intro T hT ms hinv
    simp only [Nat.zero_add]
    rw [offset_tile_natCast nt ts layRow T hnn hT
      (offNat_le_any nt ts size layRow T hnt hsize hT hrange)]
    simp only [Option.some_bind]
    have hmid := forLoop_inv 0
      (fun i ms => forLoop 0 (fun j ms =>
        (int_mul_add (i : Int) (ts : Int) (j : Int)).bind fun dst =>
          (src_index ((offNat nt ts layRow T : Nat) : Int) (i : Int) (size : Int)
              (j : Int)).bind
            fun src => (readAt M src).bind fun v => writeTile ms (T : Int) dst v) ts ms)
      (fun I ms => SplitInvAny M nt ts size layRow T (I * ts) ms) ts ms (by simpa using hinv)
      (by
        intro I hI ms1 hinv1
        simp only [Nat.zero_add]
        have hin := forLoop_inv 0
          (fun j ms => (int_mul_add (I : Int) (ts : Int) (j : Int)).bind fun dst =>
            (src_index ((offNat nt ts layRow T : Nat) : Int) (I : Int) (size : Int)
                (j : Int)).bind
              fun src => (readAt M src).bind fun v => writeTile ms (T : Int) dst v)
          (fun J ms => SplitInvAny M nt ts size layRow T (I * ts + J) ms) ts ms1
          (by simpa using hinv1)
          (by
            intro J hJ ms2 hinv2
            simp only [Nat.zero_add]
            exact split_step_any M nt ts size layRow hnt hsize hM hrange T I J hT hI hJ ms2
              hinv2)
        obtain ⟨ms', h1, h2⟩ := hin
        refine ⟨ms', h1, ?_⟩
        have e : (I + 1) * ts = I * ts + ts := by ring
        rw [e]; exact h2)
    obtain ⟨ms', h1, h2⟩ := hmid
    refine ⟨ms', h1, h2.1, ?_⟩
    intro t k ht hk hd
    apply h2.2 t k ht hk
    rcases hd with h3 | ⟨_, h4⟩
    · rcases Nat.lt_or_ge t T with h5 | h5
      · exact Or.inl h5
      · exact Or.inr ⟨by omega, hk⟩
    · omega

theorem sq_tiles_le (nt ts : Nat) (hts : 0 < ts) : nt * nt ≤ nt * ts * (nt * ts) := by
  have h1 : nt ≤ nt * ts := Nat.le_mul_of_pos_right nt hts
  exact Nat.mul_le_mul h1 h1

theorem split_spec {α : Type} (M : List α) (G0 : List (List α)) (nt ts : Nat) (layRow : Bool)
    (hnt : 0 < nt) (hts : 0 < ts) (hM : M.length = nt * ts * (nt * ts))
    (hG0 : GridShape nt ts G0) (hrange : nt * ts * (nt * ts) ≤ 2147483647) :
    ∃ G, split_into_tiles M G0 (nt : Int) (ts : Int) ((nt : Int) * (ts : Int)) layRow = some G ∧
      SplitInv M nt ts layRow (nt * nt) 0 G := by
  have e : (nt : Int) * (ts : Int) = ((nt * ts : Nat) : Int) := by push_cast; ring
  rw [e]
  exact split_spec_any M G0 nt ts (nt * ts) layRow hnt (Nat.le_refl _) hM hG0
    (le_trans (sq_tiles_le nt ts hts) hrange) hrange

/-! ## The assembler fills every destination element -/

theorem srcCell_spec (nt ts : Nat) (layRow : Bool) (idx : Nat) (hts : 0 < ts)
    (hidx : idx < nt * ts * (nt * ts)) :
    (srcCell nt ts layRow idx).1 < nt * nt ∧ (srcCell nt ts layRow idx).2 < ts * ts ∧
      offNat nt ts layRow (srcCell nt ts layRow idx).1
        + (srcCell nt ts layRow idx).2 / ts * (nt * ts) + (srcCell nt ts layRow idx).2 % ts
        = idx := by
  have hsize : 0 < nt * ts := by
    rcases Nat.eq_zero_or_pos (nt * ts) with h | h
    · rw [h] at hidx; omega
    · exact h
  have hi : idx / (nt * ts) < nt * ts := Nat.div_lt_of_lt_mul hidx
  have hj : idx % (nt * ts) < nt * ts := Nat.mod_lt _ hsize
  have hit : idx / (nt * ts) / ts < nt := Nat.div_lt_of_lt_mul (by rw [Nat.mul_comm ts nt]; exact hi)
  have hjt : idx % (nt * ts) / ts < nt := Nat.div_lt_of_lt_mul (by rw [Nat.mul_comm ts nt]; exact hj)
  have hil : idx / (nt * ts) % ts < ts := Nat.mod_lt _ hts
  have hjl : idx % (nt * ts) % ts < ts := Nat.mod_lt _ hts
  have hk := div_add_div_mod (idx / (nt * ts) % ts) (idx % (nt * ts) % ts) ts hjl
  have key : (idx / (nt * ts) / ts * ts + idx / (nt * ts) % ts) * (nt * ts)
      + (idx % (nt * ts) / ts * ts + idx % (nt * ts) % ts) = idx := by
    have h1 : idx / (nt * ts) / ts * ts + idx / (nt * ts) % ts = idx / (nt * ts) := by
      rw [Nat.mul_comm]; exact Nat.div_add_mod _ _
    have h2 : idx % (nt * ts) / ts * ts + idx % (nt * ts) % ts = idx % (nt * ts) := by
      rw [Nat.mul_comm]; exact Nat.div_add_mod _ _
    rw [h1, h2, Nat.mul_comm]; exact Nat.div_add_mod _ _
  cases layRow
  · have ht := div_add_div_mod (idx % (nt * ts) / ts) (idx / (nt * ts) / ts) nt hit
    refine ⟨mul_add_lt_mul hjt hit, mul_add_lt_mul hil hjl, ?_⟩
    simp only [srcCell, Bool.false_eq_true, if_false]
    rw [hk.1, hk.2, offNat_eq]
    simp only [Bool.false_eq_true, if_false, ht.1, ht.2]
    exact key
  · have ht := div_add_div_mod (idx / (nt * ts) / ts) (idx % (nt * ts) / ts) nt hjt
    refine ⟨mul_add_lt_mul hit hjt, mul_add_lt_mul hil hjl, ?_⟩
    simp only [srcCell, if_true]
    rw [hk.1, hk.2, offNat_eq]
    simp only [if_true, ht.1, ht.2]
    exact key

theorem tileGet_isSome {α : Type} (nt ts : Nat) (G : List (List α)) (hG : GridShape nt ts G)
    (t k : Nat) (ht : t < nt * nt) (hk : k < ts * ts) : ∃ v, tileGet G t k = some v := by
  obtain ⟨buf, hbuf, hlen⟩ := hG.2 t ht
  have hk' : k < buf.length := by rw [hlen]; exact hk
  exact ⟨buf[k], by simp [tileGet, hbuf, List.getElem?_eq_getElem hk']⟩

theorem assemble_step {α : Type} (G : List (List α)) (nt ts : Nat) (layRow : Bool) (hts : 0 < ts)
    (hG : GridShape nt ts G) (hrange : nt * ts * (nt * ts) ≤ 2147483647) (I J : Nat)
    (hI : I < nt * ts) (hJ : J < nt * ts) (m : List α)
    (h : AssembleInv G nt ts layRow (I * (nt * ts) + J) m) :
    ∃ m', ((if layRow then
            int_mul_add ((I : Int).tdiv (ts : Int)) (nt : Int) ((J : Int).tdiv (ts : Int))
          else int_mul_add ((J : Int).tdiv (ts : Int)) (nt : Int) ((I : Int).tdiv (ts : Int))).bind
        fun tile =>
          (int_mul_add (I : Int) ((nt * ts : Nat) : Int) (J : Int)).bind fun dst =>
            (int_mul_add ((I : Int).tmod (ts : Int)) (ts : Int) ((J : Int).tmod (ts : Int))).bind
              fun k => (readTile G tile k).bind fun v => writeAt m dst v) = some m' ∧
      AssembleInv G nt ts layRow (I * (nt * ts) + J + 1) m' := by
  obtain ⟨hlen, hcells⟩ := h
  have hidx : I * (nt * ts) + J < nt * ts * (nt * ts) := mul_add_lt_mul hI hJ
  have hdm := div_add_div_mod I J (nt * ts) hJ
  have hsrc : srcCell nt ts layRow (I * (nt * ts) + J) =
      (if layRow then I / ts * nt + J / ts else J / ts * nt + I / ts, I % ts * ts + J % ts) := by
    simp only [srcCell, hdm.1, hdm.2]
  have hspec := srcCell_spec nt ts layRow (I * (nt * ts) + J) hts hidx
  rw [hsrc] at hspec
  obtain ⟨v, hv⟩ := tileGet_isSome nt ts G hG _ _ hspec.1 hspec.2.1
  have hnn := sq_tiles_le nt ts hts
  have hts2 : ts * ts ≤ nt * ts * (nt * ts) := by
    have h0 : 0 < nt := by
      rcases Nat.eq_zero_or_pos nt with h1 | h1
      · subst h1; simp at hI
      · exact h1
    have h1 : ts ≤ nt * ts := Nat.le_mul_of_pos_left ts h0
    exact Nat.mul_le_mul h1 h1
  have htile : (if layRow then
        int_mul_add ((I : Int).tdiv (ts : Int)) (nt : Int) ((J : Int).tdiv (ts : Int))
      else int_mul_add ((J : Int).tdiv (ts : Int)) (nt : Int) ((I : Int).tdiv (ts : Int)))
      = some ((if layRow then I / ts * nt + J / ts else J / ts * nt + I / ts : Nat) : Int) := by
    have h1 := hspec.1
    cases layRow
    · simp only [Bool.false_eq_true, if_false] at h1 ⊢
      rw [← Int.ofNat_tdiv, ← Int.ofNat_tdiv]
      exact int_mul_add_natCast _ _ _ (by omega)
    · simp only [if_true] at h1 ⊢
      rw [← Int.ofNat_tdiv, ← Int.ofNat_tdiv]
      exact int_mul_add_natCast _ _ _ (by omega)
  rw [htile]
  simp only [Option.some_bind]
  rw [int_mul_add_natCast I (nt * ts) J (by omega)]
  simp only [Option.some_bind]
  rw [← Int.ofNat_tmod, ← Int.ofNat_tmod,
    int_mul_add_natCast (I % ts) ts (J % ts) (by have := hspec.2.1; omega)]
  simp only [Option.some_bind]
  rw [readTile_natCast, hv]
  simp only [Option.some_bind]
  rw [writeAt_natCast m _ v (by rw [hlen]; exact hidx)]
  refine ⟨_, rfl, by simpa using hlen, ?_⟩
  intro idx hlt
  by_cases hc : idx = I * (nt * ts) + J
  · subst hc
    rw [hsrc, hv]
    simp [List.getElem?_set, hlen, hidx]
  · have hne : I * (nt * ts) + J ≠ idx := fun h => hc h.symm
    rw [List.getElem?_set_ne hne]
    exact hcells idx (by omega)

theorem assemble_spec {α : Type} (G : List (List α)) (m0 : List α) (nt ts : Nat) (layRow : Bool)
    (hts : 0 < ts) (hG : GridShape nt ts G) (hm0 : m0.length = nt * ts * (nt * ts))
    (hrange : nt * ts * (nt * ts) ≤ 2147483647) :
    ∃ m, assemble_tiles G m0 (nt : Int) (ts : Int) ((nt : Int) * (ts : Int)) layRow = some m ∧
      AssembleInv G nt ts layRow (nt * ts * (nt * ts)) m := by
  unfold assemble_tiles
  have e1 : (nt : Int) * (ts : Int) = ((nt * ts : Nat) : Int) := by push_cast; ring
  have hne : ¬ (ts : Int) = 0 := by omega
  rw [e1]
  simp only [Int.toNat_natCast, if_neg hne]
  apply forLoop_inv 0 _ (fun I m => AssembleInv G nt ts layRow (I * (nt * ts)) m)
  · exact ⟨hm0, fun idx h => by omega⟩
  · intro I hI m1 hinv1
    simp only [Nat.zero_add]
    have hin := forLoop_inv 0
      (fun j m => (if layRow then
            int_mul_add ((I : Int).tdiv (ts : Int)) (nt : Int) ((j : Int).tdiv (ts : Int))
          else int_mul_add ((j : Int).tdiv (ts : Int)) (nt : Int) ((I : Int).tdiv (ts : Int))).bind
        fun tile =>
          (int_mul_add (I : Int) ((nt * ts : Nat) : Int) (j : Int)).bind fun dst =>
            (int_mul_add ((I : Int).tmod (ts : Int)) (ts : Int) ((j : Int).tmod (ts : Int))).bind
              fun k => (readTile G tile k).bind fun v => writeAt m dst v)
      (fun J m => AssembleInv G nt ts layRow (I * (nt * ts) + J) m) (nt * ts) m1
      (by simpa using hinv1)
      (by
        intro J hJ m2 hinv2
        simp only [Nat.zero_add]
        exact assemble_step G nt ts layRow hts hG hrange I J hI hJ m2 hinv2)
    obtain ⟨m', h1, h2⟩ := hin
    refine ⟨m', h1, ?_⟩
    have e : (I + 1) * (nt * ts) = I * (nt * ts) + nt * ts := by ring
    rw [e]; exact h2

theorem gridShape_of_lengths {α : Type} (nt ts : Nat) (ms : List (List α))
    (hlen : (ms.length : Int) = (nt : Int) * (nt : Int))
    (hbuf : ∀ buf ∈ ms, (buf.length : Int) = (ts : Int) * (ts : Int)) : GridShape nt ts ms := by
  have hlen' : ms.length = nt * nt := by exact_mod_cast hlen
  refine ⟨hlen', fun t ht => ?_⟩
  have ht' : t < ms.length := by rw [hlen']; exact ht
  refine ⟨ms[t], List.getElem?_eq_getElem ht', ?_⟩
  have := hbuf ms[t] (List.getElem_mem ht')
  exact_mod_cast this

theorem grid_ext {α : Type} (nt ts : Nat) (G G' : List (List α)) (hG : GridShape nt ts G)
    (hG' : GridShape nt ts G')
    (h : ∀ t, t < nt * nt → ∀ k, k < ts * ts → tileGet G t k = tileGet G' t k) : G = G' := by
  apply List.ext_getElem?
  intro t
  rcases Nat.lt_or_ge t (nt * nt) with ht | ht
  · obtain ⟨b, hb, hbl⟩ := hG.2 t ht
    obtain ⟨b', hb', hbl'⟩ := hG'.2 t ht
    rw [hb, hb']
    congr 1
    apply List.ext_getElem?
    intro k
    rcases Nat.lt_or_ge k (ts * ts) with hk | hk
    · have := h t ht k hk
      simpa [tileGet, hb, hb'] using this
    · rw [List.getElem?_eq_none (by omega), List.getElem?_eq_none (by omega)]
  · rw [List.getElem?_eq_none (by rw [hG.1]; exact ht),
      List.getElem?_eq_none (by rw [hG'.1]; exact ht)]

theorem roundtrip_nat {α : Type} (M : List α) (G0 : List (List α)) (out0 : List α)
    (nt ts : Nat) (layRow : Bool) (hnt : 0 < nt) (hts : 0 < ts)
    (hM : M.length = nt * ts * (nt * ts)) (hG0 : GridShape nt ts G0)
    (hout0 : out0.length = nt * ts * (nt * ts))
    (hrange : nt * ts * (nt * ts) ≤ 2147483647) :
    ∃ G, split_into_tiles M G0 (nt : Int) (ts : Int) ((nt : Int) * (ts : Int)) layRow = some G ∧
      assemble_tiles G out0 (nt : Int) (ts : Int) ((nt : Int) * (ts : Int)) layRow = some M := by
  obtain ⟨G, hsplit, hshape, hcells⟩ := split_spec M G0 nt ts layRow hnt hts hM hG0 hrange
  obtain ⟨m, hasm, hlen, hm⟩ := assemble_spec G out0 nt ts layRow hts hshape hout0 hrange
  refine ⟨G, hsplit, ?_⟩
  rw [hasm]
  congr 1
  apply List.ext_getElem?
  intro idx
  rcases Nat.lt_or_ge idx (nt * ts * (nt * ts)) with hidx | hidx
  · obtain ⟨h1, h2, h3⟩ := srcCell_spec nt ts layRow idx hts hidx
    rw [hm idx hidx, hcells _ _ h1 h2 (Or.inl h1), h3]
  · rw [List.getElem?_eq_none (by omega), List.getElem?_eq_none (by omega)]

theorem split_eq_of_cells {α : Type} (M : List α) (G0 G' : List (List α)) (nt ts : Nat)
    (layRow : Bool) (hnt : 0 < nt) (hts : 0 < ts) (hM : M.length = nt * ts * (nt * ts))
    (hG0 : GridShape nt ts G0) (hG' : GridShape nt ts G')
    (hrange : nt * ts * (nt * ts) ≤ 2147483647)
    (h : ∀ t, t < nt * nt → ∀ k, k < ts * ts →
      tileGet G' t k = M[offNat nt ts layRow t + k / ts * (nt * ts) + k % ts]?) :
    split_into_tiles M G0 (nt : Int) (ts : Int) ((nt : Int) * (ts : Int)) layRow = some G' := by
  obtain ⟨G, hsplit, hshape, hcells⟩ := split_spec M G0 nt ts layRow hnt hts hM hG0 hrange
  rw [hsplit]
  congr 1
  apply grid_ext nt ts G G' hshape hG'
  intro t ht k hk
  rw [hcells t k ht hk (Or.inl ht), h t ht k hk]

theorem assemble_eq_of_cells {α : Type} (G : List (List α)) (m0 m' : List α) (nt ts : Nat)
    (layRow : Bool) (hts : 0 < ts) (hG : GridShape nt ts G)
    (hm0 : m0.length = nt * ts * (nt * ts)) (hm' : m'.length = nt * ts * (nt * ts))
    (hrange : nt * ts * (nt * ts) ≤ 2147483647)
    (h : ∀ idx, idx < nt * ts * (nt * ts) →
      m'[idx]? = tileGet G (srcCell nt ts layRow idx).1 (srcCell nt ts layRow idx).2) :
    assemble_tiles G m0 (nt : Int) (ts : Int) ((nt : Int) * (ts : Int)) layRow = some m' := by
  obtain ⟨m, hasm, hlen, hm⟩ := assemble_spec G m0 nt ts layRow hts hG hm0 hrange
  rw [hasm]
  congr 1
  apply List.ext_getElem?
  intro idx
  rcases Nat.lt_or_ge idx (nt * ts * (nt * ts)) with hidx | hidx
  · rw [hm idx hidx, h idx hidx]
  · rw [List.getElem?_eq_none (by omega), List.getElem?_eq_none (by omega)]

theorem srcCell_offNat (nt ts : Nat) (layRow : Bool) (t i j : Nat) (hnt : 0 < nt)
    (ht : t < nt * nt) (hi : i < ts) (hj : j < ts) :
    srcCell nt ts layRow (offNat nt ts layRow t + i * (nt * ts) + j) = (t, i * ts + j) := by
  have hdiv : t / nt < nt := Nat.div_lt_of_lt_mul ht
  have hmod : t % nt < nt := Nat.mod_lt _ hnt
  have htt : t / nt * nt + t % nt = t := by rw [Nat.mul_comm]; exact Nat.div_add_mod _ _
  rw [offNat_eq]
  cases layRow
  · have hcol : t / nt * ts + j < nt * ts := mul_add_lt_mul hdiv hj
    have h1 := div_add_div_mod (t % nt * ts + i) (t / nt * ts + j) (nt * ts) hcol
    have h2 := div_add_div_mod (t % nt) i ts hi
    have h3 := div_add_div_mod (t / nt) j ts hj
    simp only [srcCell, Bool.false_eq_true, if_false, h1.1, h1.2, h2.1, h2.2, h3.1, h3.2, htt]
  · have hcol : t % nt * ts + j < nt * ts := mul_add_lt_mul hmod hj
    have h1 := div_add_div_mod (t / nt * ts + i) (t % nt * ts + j) (nt * ts) hcol
    have h2 := div_add_div_mod (t / nt) i ts hi
    have h3 := div_add_div_mod (t % nt) j ts hj
    simp only [srcCell, if_true, h1.1, h1.2, h2.1, h2.2, h3.1, h3.2, htt]

theorem div_mul_add_mod_lt (k ts : Nat) (hk : k < ts * ts) :
    k / ts < ts ∧ k % ts < ts ∧ k / ts * ts + k % ts = k := by
  have hts : 0 < ts := by
    rcases Nat.eq_zero_or_pos ts with h | h
    · rw [h] at hk; omega
    · exact h
  exact ⟨Nat.div_lt_of_lt_mul hk, Nat.mod_lt _ hts, by rw [Nat.mul_comm]; exact Nat.div_add_mod _ _⟩

theorem inverse_nat {α : Type} (G : List (List α)) (out0 : List α) (tiles0 : List (List α))
    (nt ts : Nat) (layRow : Bool) (hnt : 0 < nt) (hts : 0 < ts) (hG : GridShape nt ts G)
    (hout0 : out0.length = nt * ts * (nt * ts)) (htiles0 : GridShape nt ts tiles0)
    (hrange : nt * ts * (nt * ts) ≤ 2147483647) :
    ∃ m, assemble_tiles G out0 (nt : Int) (ts : Int) ((nt : Int) * (ts : Int)) layRow = some m ∧
      split_into_tiles m tiles0 (nt : Int) (ts : Int) ((nt : Int) * (ts : Int)) layRow
        = some G := by
  obtain ⟨m, hasm, hlen, hm⟩ := assemble_spec G out0 nt ts layRow hts hG hout0 hrange
  refine ⟨m, hasm, ?_⟩
  apply split_eq_of_cells m tiles0 G nt ts layRow hnt hts hlen htiles0 hG hrange
  intro t ht k hk
  obtain ⟨hki, hkj, hkk⟩ := div_mul_add_mod_lt k ts hk
  rw [hm _ (offNat_lt nt ts layRow t _ _ hnt ht hki hkj),
    srcCell_offNat nt ts layRow t _ _ hnt ht hki hkj, hkk]

/-! ## Sizes beyond the `int` range, and sizes that do not divide -/

theorem src_index_none_natCast (o i s j : Nat) (h : 2147483647 < o + i * s + j) :
    src_index (o : Int) (i : Int) (s : Int) (j : Int) = none := by
  cases hs : src_index (o : Int) (i : Int) (s : Int) (j : Int) with
  | none => rfl
  | some w =>
    exfalso
    have h1 := (src_index_eq_some hs).2
    have h2 : ((o + i * s + j : Nat) : Int) ≤ 2147483647 := by push_cast; linarith
    have h3 : o + i * s + j ≤ 2147483647 := by exact_mod_cast h2
    omega

theorem int_mul_add_none_natCast (a b c : Nat) (h : 2147483647 < a * b + c) :
    int_mul_add (a : Int) (b : Int) (c : Int) = none := by
  cases hs : int_mul_add (a : Int) (b : Int) (c : Int) with
  | none => rfl
  | some w =>
    exfalso
    have h1 := (int_mul_add_eq_some hs).2
    have h2 : ((a * b + c : Nat) : Int) ≤ 2147483647 := by push_cast; linarith
    have h3 : a * b + c ≤ 2147483647 := by exact_mod_cast h2
    omega

theorem split_none_of_overflow {α : Type} (M : List α) (G0 : List (List α)) (nt ts size : Nat)
    (layRow : Bool) (hts : 0 < ts) (hsize : size = nt * ts)
    (hbig : 2147483648 < size * size) :
    split_into_tiles M G0 (nt : Int) (ts : Int) (size : Int) layRow = none := by
  subst hsize
  unfold split_into_tiles
  cases h0 : int32 ((nt : Int) * (nt : Int)) with
  | none => rfl
  | some total =>
    have htot : total = ((nt * nt : Nat) : Int) := by
      rw [(int32_eq_some h0).1]; push_cast; ring
    subst htot
    simp only [Option.some_bind, Int.toNat_natCast]
    obtain ⟨h1, h2, h3⟩ := srcCell_spec nt ts layRow (nt * ts * (nt * ts) - 1) hts (by omega)
    obtain ⟨hki, hkj, _⟩ := div_mul_add_mod_lt _ ts h2
    apply forLoop_none 0 _ (nt * nt) _ h1
    intro ms
    simp only [Nat.zero_add]
    cases ho : offset_tile (nt : Int) (ts : Int) layRow
        (((srcCell nt ts layRow (nt * ts * (nt * ts) - 1)).1 : Nat) : Int) with
    | none => rfl
    | some off =>
      have hoff := offset_tile_eq_some nt ts layRow _ ho
      subst hoff
      simp only [Option.some_bind]
      apply forLoop_none 0 _ ts _ hki
      intro ms1
      apply forLoop_none 0 _ ts _ hkj
      intro ms2
      simp only [Nat.zero_add]
      rw [src_index_none_natCast _ _ _ _ (by rw [h3]; omega)]
      cases int_mul_add
        ((((srcCell nt ts layRow (nt * ts * (nt * ts) - 1)).2 / ts : Nat) : Int)) (ts : Int)
        ((((srcCell nt ts layRow (nt * ts * (nt * ts) - 1)).2 % ts : Nat) : Int)) <;> rfl

theorem assemble_none_of_overflow {α : Type} (G : List (List α)) (out0 : List α)
    (nt ts size : Nat) (layRow : Bool) (hbig : 2147483648 < size * size) :
    assemble_tiles G out0 (nt : Int) (ts : Int) (size : Int) layRow = none := by
  have hpos : 0 < size := by
    rcases Nat.eq_zero_or_pos size with h | h
    · subst h; omega
    · exact h
  unfold assemble_tiles
  simp only [Int.toNat_natCast]
  rcases Nat.eq_zero_or_pos ts with hts | hts
  · subst hts
    apply forLoop_none 0 _ size 0 hpos
    intro m
    simp
  · have hne : ¬ (ts : Int) = 0 := by omega
    simp only [if_neg hne]
    apply forLoop_none 0 _ size (size - 1) (by omega)
    intro m
    apply forLoop_none 0 _ size (size - 1) (by omega)
    intro m'
    simp only [Nat.zero_add]
    have hdst : int_mul_add ((size - 1 : Nat) : Int) (size : Int) ((size - 1 : Nat) : Int)
        = none := by
      apply int_mul_add_none_natCast
      obtain ⟨p, hp⟩ : ∃ p, size = p + 1 := ⟨size - 1, by omega⟩
      subst hp
      have h1 : (p + 1 - 1) * (p + 1) + (p + 1 - 1) + 1 = (p + 1) * (p + 1) := by
        rw [Nat.add_sub_cancel]; ring
      omega
    rw [hdst]
    cases (if layRow then
        int_mul_add (((size - 1 : Nat) : Int).tdiv (ts : Int)) (nt : Int)
          (((size - 1 : Nat) : Int).tdiv (ts : Int))
      else int_mul_add (((size - 1 : Nat) : Int).tdiv (ts : Int)) (nt : Int)
          (((size - 1 : Nat) : Int).tdiv (ts : Int))) <;> rfl

theorem assemble_none_of_remainder {α : Type} (G : List (List α)) (out0 : List α)
    (nt ts size : Nat) (layRow : Bool) (hG : G.length = nt * nt) (hsize : nt * ts < size) :
    assemble_tiles G out0 (nt : Int) (ts : Int) (size : Int) layRow = none := by
  unfold assemble_tiles
  simp only [Int.toNat_natCast]
  rcases Nat.eq_zero_or_pos ts with hts | hts
  · subst hts
    apply forLoop_none 0 _ size 0 (by omega)
    intro m
    simp
  · have hne : ¬ (ts : Int) = 0 := by omega
    simp only [if_neg hne]
    apply forLoop_none 0 _ size (nt * ts) hsize
    intro m
    apply forLoop_none 0 _ size (nt * ts) hsize
    intro m'
    simp only [Nat.zero_add]
    have hd : ((nt * ts : Nat) : Int).tdiv (ts : Int) = (nt : Int) := by
      rw [← Int.ofNat_tdiv, Nat.mul_div_cancel _ hts]
    rw [hd]
    simp only [ite_self]
    cases htile : int_mul_add (nt : Int) (nt : Int) (nt : Int) with
    | none => rfl
    | some tile =>
      have ht := (int_mul_add_eq_some htile).1
      have hread : readAt G tile = none := by
        have e : tile = ((nt * nt + nt : Nat) : Int) := by rw [ht]; push_cast; ring
        rw [e, readAt_natCast]
        exact List.getElem?_eq_none (by omega)
      simp only [Option.some_bind]
      cases int_mul_add ((nt * ts : Nat) : Int) (size : Int) ((nt * ts : Nat) : Int) with
      | none => rfl
      | some dst =>
        simp only [Option.some_bind]
        cases int_mul_add (((nt * ts : Nat) : Int).tmod (ts : Int)) (ts : Int)
            (((nt * ts : Nat) : Int).tmod (ts : Int)) with
        | none => rfl
        | some k => simp [readTile, hread]

/-! ## Claims on the splitter and the assembler -/

/-- Claim C1, counterexample to the claim as stated. With `num_tiles = 1`,
`tile_size = size = 46341` and a matrix of `46341 * 46341 = 2147488281` elements, the source
index `offset_tile + i * size + j` of the last element is `2147488280`, above `INT_MAX`:
the `int` expression overflows and `split_into_tiles` yields no tile grid, so there is nothing
for `assemble_tiles` to restore. -/
theorem assemble_split_roundtrip_counterexample :
    (1 : Int) ≤ 1 ∧ (1 : Int) ≤ 46341 ∧ (46341 : Int) = 1 * 46341 ∧
      ((List.replicate 2147488281 (0 : ℚ)).length : Int) = 46341 * 46341 ∧
      (([List.replicate 2147488281 (0 : ℚ)] : List (List ℚ)).length : Int) = 1 * 1 ∧
      (∀ buf ∈ ([List.replicate 2147488281 (0 : ℚ)] : List (List ℚ)),
        (buf.length : Int) = 46341 * 46341) ∧
      split_into_tiles (List.replicate 2147488281 (0 : ℚ)) [List.replicate 2147488281 (0 : ℚ)]
        1 46341 46341 true = none := by
  refine ⟨by decide, by decide, by decide, ?_, by rfl, ?_, ?_⟩
  · rw [List.length_replicate]; norm_num
  · intro buf hb
    rw [List.mem_singleton] at hb
    rw [hb, List.length_replicate]; norm_num
  · exact split_none_of_overflow _ _ 1 46341 46341 true (by decide) (by decide) (by decide)

/-- Claim C1, amended (round trip). For `num_tiles ≥ 1`, `tile_size ≥ 1`,
`size = num_tiles * tile_size` with `size * size ≤ INT_MAX` (so that every `int` index
expression of the code stays in range), either `layRow`, and a matrix `M` of `size * size`
elements: `split_into_tiles` succeeds on any
pre-allocated grid of `num_tiles²` buffers of `tile_size²` elements, and `assemble_tiles` run on
its result, into any destination buffer of `size * size` elements, returns exactly `M`
(so the assembled matrix equals `M` at every offset in `[0, size * size)`). -/
theorem assemble_split_roundtrip {α : Type} (num_tiles tile_size size : Int) (layRow : Bool)
    (M : List α) (tiles0 : List (List α)) (out0 : List α)
    (hnt : 1 ≤ num_tiles) (hts : 1 ≤ tile_size) (hsize : size = num_tiles * tile_size)
    (hM : (M.length : Int) = size * size)
    (htiles : (tiles0.length : Int) = num_tiles * num_tiles)
    (hbufs : ∀ buf ∈ tiles0, (buf.length : Int) = tile_size * tile_size)
    (hout : (out0.length : Int) = size * size) (hrange : size * size ≤ INT_MAX) :
    ∃ G, split_into_tiles M tiles0 num_tiles tile_size size layRow = some G ∧
      assemble_tiles G out0 num_tiles tile_size size layRow = some M := by
  obtain ⟨nt, rfl⟩ := Int.eq_ofNat_of_zero_le (by omega : 0 ≤ num_tiles)
  obtain ⟨ts, rfl⟩ := Int.eq_ofNat_of_zero_le (by omega : 0 ≤ tile_size)
  subst hsize
  unfold INT_MAX at hrange
  exact roundtrip_nat M tiles0 out0 nt ts layRow (by omega) (by omega) (by exact_mod_cast hM)
    (gridShape_of_lengths nt ts tiles0 htiles hbufs) (by exact_mod_cast hout)
    (by exact_mod_cast hrange)

/-- Witness of C1 amended: the 4 × 4 matrix `1 … 16` in 2 × 2 tiles, column-block-major. -/
theorem assemble_split_roundtrip_witness :
    ∃ G, split_into_tiles [1, 2, 3, 4, 5, 6, 7, 8, 9, 10, 11, 12, 13, 14, 15, 16]
        (List.replicate 4 (List.replicate 4 (0 : ℚ))) 2 2 4 false = some G ∧
      assemble_tiles G (List.replicate 16 (0 : ℚ)) 2 2 4 false
        = some [1, 2, 3, 4, 5, 6, 7, 8, 9, 10, 11, 12, 13, 14, 15, 16] :=
  assemble_split_roundtrip 2 2 4 false [1, 2, 3, 4, 5, 6, 7, 8, 9, 10, 11, 12, 13, 14, 15, 16]
    (List.replicate 4 (List.replicate 4 (0 : ℚ))) (List.replicate 16 (0 : ℚ))
    (by decide) (by decide) (by decide) (by decide) (by decide) (by decide) (by decide)
    (by decide)

/-- Claim C2, counterexample to the claim as stated. With `num_tiles = 10`,
`tile_size = 5000`, `size = 50000`, the origin of tile 99 is
`9 * 10 * 5000 * 5000 + 9 * 5000 = 2250045000`, above `INT_MAX`: the `int` expression
`offset_tile` overflows, and `split_into_tiles` stores no tile at all. -/
theorem split_tile_contents_counterexample :
    (1 : Int) ≤ 10 ∧ (1 : Int) ≤ 5000 ∧ (50000 : Int) = 10 * 5000 ∧
      ((List.replicate 2500000000 (0 : ℚ)).length : Int) = 50000 * 50000 ∧
      ((List.replicate 100 (List.replicate 25000000 (0 : ℚ))).length : Int) = 10 * 10 ∧
      (∀ buf ∈ List.replicate 100 (List.replicate 25000000 (0 : ℚ)),
        (buf.length : Int) = 5000 * 5000) ∧
      offset_tile 10 5000 true 99 = none ∧
      split_into_tiles (List.replicate 2500000000 (0 : ℚ))
        (List.replicate 100 (List.replicate 25000000 (0 : ℚ))) 10 5000 50000 true = none := by
  refine ⟨by decide, by decide, by decide, ?_, ?_, ?_, by decide, ?_⟩
  · rw [List.length_replicate]; norm_num
  · rw [List.length_replicate]; norm_num
  · intro buf hb
    rw [List.eq_of_mem_replicate hb, List.length_replicate]; norm_num
  · exact split_none_of_overflow _ _ 10 5000 50000 true (by decide) (by decide) (by decide)

/-- Claim C2, amended (tile contents). For `num_tiles ≥ 1`, `tile_size ≥ 1`,
`size = num_tiles * tile_size` with `size * size ≤ INT_MAX` (so that every `int` index
expression of the code stays in range), `split_into_tiles` succeeds, and for every tile `t ∈ [0, num_tiles²)` and `i, j ∈ [0, tile_size)`
the cell `i * tile_size + j` of tile `t` holds the matrix element at row `R * tile_size + i`,
column `C * tile_size + j`, i.e. at flat offset `(R * tile_size + i) * size + C * tile_size + j`,
where `(R, C) = (t / num_tiles, t % num_tiles)` if `layRow` and `(t % num_tiles, t / num_tiles)`
otherwise; the origin `offset_tile` computed by the code is
`R * num_tiles * tile_size² + C * tile_size`, which is the flat offset of the top-left element
`(R * tile_size, C * tile_size)` of that block. -/
theorem split_tile_contents {α : Type} (num_tiles tile_size size : Int) (layRow : Bool)
    (M : List α) (tiles0 : List (List α))
    (hnt : 1 ≤ num_tiles) (hts : 1 ≤ tile_size) (hsize : size = num_tiles * tile_size)
    (hM : (M.length : Int) = size * size)
    (htiles : (tiles0.length : Int) = num_tiles * num_tiles)
    (hbufs : ∀ buf ∈ tiles0, (buf.length : Int) = tile_size * tile_size)
    (hrange : size * size ≤ INT_MAX) :
    ∃ G, split_into_tiles M tiles0 num_tiles tile_size size layRow = some G ∧
      ∀ t i j : Int, 0 ≤ t → t < num_tiles * num_tiles → 0 ≤ i → i < tile_size →
        0 ≤ j → j < tile_size →
        (∃ v, readTile G t (i * tile_size + j) = some v ∧
          readAt M (((if layRow then t / num_tiles else t % num_tiles) * tile_size + i) * size
            + (if layRow then t % num_tiles else t / num_tiles) * tile_size + j) = some v) ∧
        offset_tile num_tiles tile_size layRow t =
          some ((if layRow then t / num_tiles else t % num_tiles) * num_tiles * tile_size ^ 2
            + (if layRow then t % num_tiles else t / num_tiles) * tile_size) ∧
        offset_tile num_tiles tile_size layRow t =
          some ((if layRow then t / num_tiles else t % num_tiles) * tile_size * size
            + (if layRow then t % num_tiles else t / num_tiles) * tile_size) := by
  obtain ⟨nt, rfl⟩ := Int.eq_ofNat_of_zero_le (by omega : 0 ≤ num_tiles)
  obtain ⟨ts, rfl⟩ := Int.eq_ofNat_of_zero_le (by omega : 0 ≤ tile_size)
  subst hsize
  have hnt' : 0 < nt := by omega
  have hts' : 0 < ts := by omega
  have hM' : M.length = nt * ts * (nt * ts) := by exact_mod_cast hM
  unfold INT_MAX at hrange
  have hrange' : nt * ts * (nt * ts) ≤ 2147483647 := by exact_mod_cast hrange
  obtain ⟨G, hsplit, hshape, hcells⟩ := split_spec M tiles0 nt ts layRow hnt' hts' hM'
    (gridShape_of_lengths nt ts tiles0 htiles hbufs) hrange'
  refine ⟨G, hsplit, ?_⟩
  intro t i j ht0 ht hi0 hi hj0 hj
  obtain ⟨t, rfl⟩ := Int.eq_ofNat_of_zero_le ht0
  obtain ⟨i, rfl⟩ := Int.eq_ofNat_of_zero_le hi0
  obtain ⟨j, rfl⟩ := Int.eq_ofNat_of_zero_le hj0
  have ht' : t < nt * nt := by exact_mod_cast ht
  have hi' : i < ts := by exact_mod_cast hi
  have hj' : j < ts := by exact_mod_cast hj
  have hk : i * ts + j < ts * ts := mul_add_lt_mul hi' hj'
  have hdm := div_add_div_mod i j ts hj'
  have hoff := offNat_lt nt ts layRow t i j hnt' ht' hi' hj'
  have e1 : (i : Int) * (ts : Int) + (j : Int) = ((i * ts + j : Nat) : Int) := by push_cast; ring
  have e2 : ((if layRow then (t : Int) / (nt : Int) else (t : Int) % (nt : Int)) * (ts : Int)
        + (i : Int)) * ((nt : Int) * (ts : Int))
        + (if layRow then (t : Int) % (nt : Int) else (t : Int) / (nt : Int)) * (ts : Int)
        + (j : Int)
      = ((offNat nt ts layRow t + i * (nt * ts) + j : Nat) : Int) := by
    rw [offNat_eq]
    cases layRow <;> simp <;> ring
  have e3 : (if layRow then (t : Int) / (nt : Int) else (t : Int) % (nt : Int)) * (ts : Int)
        * ((nt : Int) * (ts : Int))
        + (if layRow then (t : Int) % (nt : Int) else (t : Int) / (nt : Int)) * (ts : Int)
      = ((offNat nt ts layRow t : Nat) : Int) := by
    have := offNat_eq nt ts layRow t 0 0
    simp only [Nat.zero_mul, Nat.add_zero] at this
    rw [this]
    cases layRow <;> simp
  have hb : offNat nt ts layRow t + i * (nt * ts) + j < M.length := by rw [hM']; exact hoff
  have hot := offset_tile_natCast nt ts layRow t
    (le_trans (sq_tiles_le nt ts hts') hrange') ht' (by omega)
  refine ⟨?_, ?_, ?_⟩
  · refine ⟨M[offNat nt ts layRow t + i * (nt * ts) + j], ?_, ?_⟩
    · rw [e1, readTile_natCast, hcells t _ ht' hk (Or.inl ht'), hdm.1, hdm.2]
      exact List.getElem?_eq_getElem _
    · rw [e2, readAt_natCast]
      exact List.getElem?_eq_getElem _
  · rw [hot]
    congr 1
    unfold offNat
    cases layRow <;> simp <;> ring
  · rw [e3, hot]

/-- Witness of C2 amended: the 4 × 4 matrix `1 … 16` in 2 × 2 tiles, row-block-major. -/
theorem split_tile_contents_witness :
    ∃ G, split_into_tiles [1, 2, 3, 4, 5, 6, 7, 8, 9, 10, 11, 12, 13, 14, 15, 16]
        (List.replicate 4 (List.replicate 4 (0 : ℚ))) 2 2 4 true = some G ∧
      ∀ t i j : Int, 0 ≤ t → t < 2 * 2 → 0 ≤ i → i < 2 → 0 ≤ j → j < 2 →
        (∃ v, readTile G t (i * 2 + j) = some v ∧
          readAt [1, 2, 3, 4, 5, 6, 7, 8, 9, 10, 11, 12, 13, 14, 15, 16]
            (((if true = true then t / 2 else t % 2) * 2 + i) * 4
              + (if true = true then t % 2 else t / 2) * 2 + j) = some v) ∧
        offset_tile 2 2 true t =
          some ((if true = true then t / 2 else t % 2) * 2 * 2 ^ 2
            + (if true = true then t % 2 else t / 2) * 2) ∧
        offset_tile 2 2 true t =
          some ((if true = true then t / 2 else t % 2) * 2 * 4
            + (if true = true then t % 2 else t / 2) * 2) :=
  split_tile_contents 2 2 4 true [1, 2, 3, 4, 5, 6, 7, 8, 9, 10, 11, 12, 13, 14, 15, 16]
    (List.replicate 4 (List.replicate 4 (0 : ℚ)))
    (by decide) (by decide) (by decide) (by decide) (by decide) (by decide) (by decide)

/-! ## The concrete 4 × 4 scenarios -/

/-- Claim C3 (concrete scenario, `layRow = true`). With `size = 4`, `num_tiles = 2`, `tile_size = 2`,
splitting the row-major matrix `1 … 16` into any four pre-allocated 4-element buffers gives
tile 0 = `[1,2,5,6]`, tile 1 = `[3,4,7,8]`, tile 2 = `[9,10,13,14]`, tile 3 = `[11,12,15,16]`,
and assembling these four tiles with `layRow = true` into any 16-element buffer gives back the
original 16-element array. -/
theorem scenario_layRow_true (tiles0 : List (List ℚ)) (out0 : List ℚ)
    (htiles : tiles0.length = 4) (hbufs : ∀ buf ∈ tiles0, buf.length = 4)
    (hout : out0.length = 16) :
    split_into_tiles [1, 2, 3, 4, 5, 6, 7, 8, 9, 10, 11, 12, 13, 14, 15, 16] tiles0 2 2 4 true
        = some [[1, 2, 5, 6], [3, 4, 7, 8], [9, 10, 13, 14], [11, 12, 15, 16]] ∧
      assemble_tiles [[1, 2, 5, 6], [3, 4, 7, 8], [9, 10, 13, 14], [11, 12, 15, 16]] out0
        2 2 4 true = some [1, 2, 3, 4, 5, 6, 7, 8, 9, 10, 11, 12, 13, 14, 15, 16] := by
  have hG0 : GridShape 2 2 tiles0 :=
    gridShape_of_lengths 2 2 tiles0 (by rw [htiles]; decide)
      (fun buf hb => by rw [hbufs buf hb]; decide)
  have hG : GridShape 2 2 ([[1, 2, 5, 6], [3, 4, 7, 8], [9, 10, 13, 14], [11, 12, 15, 16]] :
      List (List ℚ)) := gridShape_of_lengths 2 2 _ (by decide) (by decide)
  constructor
  · exact split_eq_of_cells _ tiles0 _ 2 2 true (by decide) (by decide) (by decide) hG0 hG
      (by decide) (by decide)
  · exact assemble_eq_of_cells _ out0 _ 2 2 true (by decide) hG (by rw [hout]) (by decide)
      (by decide) (by decide)

/-- Witness of C3: zero-filled tile buffers and destination. -/
theorem scenario_layRow_true_witness :
    split_into_tiles [1, 2, 3, 4, 5, 6, 7, 8, 9, 10, 11, 12, 13, 14, 15, 16]
        (List.replicate 4 (List.replicate 4 (0 : ℚ))) 2 2 4 true
        = some [[1, 2, 5, 6], [3, 4, 7, 8], [9, 10, 13, 14], [11, 12, 15, 16]] ∧
      assemble_tiles [[1, 2, 5, 6], [3, 4, 7, 8], [9, 10, 13, 14], [11, 12, 15, 16]]
        (List.replicate 16 (0 : ℚ)) 2 2 4 true
        = some [1, 2, 3, 4, 5, 6, 7, 8, 9, 10, 11, 12, 13, 14, 15, 16] :=
  scenario_layRow_true (List.replicate 4 (List.replicate 4 (0 : ℚ))) (List.replicate 16 (0 : ℚ))
    (by decide) (by decide) (by decide)

/-- Claim C4 (concrete scenario, `layRow = false`). With `size = 4`, `num_tiles = 2`,
`tile_size = 2`, splitting the row-major matrix `1 … 16` with `layRow = false` into any four
pre-allocated 4-element buffers gives tile 0 = `[1,2,5,6]`, tile 1 = `[9,10,13,14]`,
tile 2 = `[3,4,7,8]`, tile 3 = `[11,12,15,16]`. -/
theorem scenario_layRow_false (tiles0 : List (List ℚ))
    (htiles : tiles0.length = 4) (hbufs : ∀ buf ∈ tiles0, buf.length = 4) :
    split_into_tiles [1, 2, 3, 4, 5, 6, 7, 8, 9, 10, 11, 12, 13, 14, 15, 16] tiles0 2 2 4 false
        = some [[1, 2, 5, 6], [9, 10, 13, 14], [3, 4, 7, 8], [11, 12, 15, 16]] := by
  have hG0 : GridShape 2 2 tiles0 :=
    gridShape_of_lengths 2 2 tiles0 (by rw [htiles]; decide)
      (fun buf hb => by rw [hbufs buf hb]; decide)
  have hG : GridShape 2 2 ([[1, 2, 5, 6], [9, 10, 13, 14], [3, 4, 7, 8], [11, 12, 15, 16]] :
      List (List ℚ)) := gridShape_of_lengths 2 2 _ (by decide) (by decide)
  exact split_eq_of_cells _ tiles0 _ 2 2 false (by decide) (by decide) (by decide) hG0 hG
    (by decide) (by decide)

/-- Witness of C4: zero-filled tile buffers. -/
theorem scenario_layRow_false_witness :
    split_into_tiles [1, 2, 3, 4, 5, 6, 7, 8, 9, 10, 11, 12, 13, 14, 15, 16]
        (List.replicate 4 (List.replicate 4 (0 : ℚ))) 2 2 4 false
        = some [[1, 2, 5, 6], [9, 10, 13, 14], [3, 4, 7, 8], [11, 12, 15, 16]] :=
  scenario_layRow_false (List.replicate 4 (List.replicate 4 (0 : ℚ))) (by decide) (by decide)

/-! ## The verifier -/

theorem getElem?_eq_some_getD {α : Type} (xs : List α) (k : Nat) (d : α) (h : k < xs.length) :
    xs[k]? = some (xs.getD k d) := by
  simp [List.getD, List.getElem?_eq_getElem h]

theorem scaledDiff_eq_err_spec {K : Type} [LinearOrderedField K] (candidate reference : List K)
    (i : Nat) :
    scaledDiff (reference.getD i 0) (candidate.getD i 0) = err_spec candidate reference i := by
  unfold scaledDiff err_spec
  split
  · exact abs_div _ _
  · rfl

theorem verify_scan_succ {K : Type} [LinearOrderedField K] (lower_res dporft_res : List K)
    (n k : Nat) (hr : k < dporft_res.length) (hl : k < lower_res.length) :
    verify_scan lower_res dporft_res (n + 1) (k : Int) =
      if scaledDiff (dporft_res.getD k 0) (lower_res.getD k 0) > 1e-5 then
        some (false, some ((k : Int), dporft_res.getD k 0, lower_res.getD k 0))
      else verify_scan lower_res dporft_res n ((k + 1 : Nat) : Int) := by
  have e : (1.0e-5 : K) = 1e-5 := by norm_num
  simp only [verify_scan, readAt_natCast, getElem?_eq_some_getD _ k (0 : K) hr,
    getElem?_eq_some_getD _ k (0 : K) hl, Option.some_bind, scaledDiff, e, Nat.cast_add,
    Nat.cast_one]

theorem verify_scan_pass {K : Type} [LinearOrderedField K] (lower_res dporft_res : List K) :
    ∀ (n k : Nat), k + n ≤ dporft_res.length → k + n ≤ lower_res.length →
      (∀ i, k ≤ i → i < k + n →
        ¬ scaledDiff (dporft_res.getD i 0) (lower_res.getD i 0) > 1e-5) →
      verify_scan lower_res dporft_res n (k : Int) = some (true, none) := by
  intro n
  induction n with
  | zero => intro k _ _ _; rfl
  | succ n ih =>
    intro k hr hl hok
    rw [verify_scan_succ lower_res dporft_res n k (by omega) (by omega),
      if_neg (hok k (Nat.le_refl k) (by omega))]
    exact ih (k + 1) (by omega) (by omega) (fun i h1 h2 => hok i (by omega) (by omega))

theorem verify_scan_fail {K : Type} [LinearOrderedField K] (lower_res dporft_res : List K) :
    ∀ (n k j : Nat), j < dporft_res.length → j < lower_res.length →
      k ≤ j → j < k + n →
      (∀ i, k ≤ i → i < j →
        ¬ scaledDiff (dporft_res.getD i 0) (lower_res.getD i 0) > 1e-5) →
      scaledDiff (dporft_res.getD j 0) (lower_res.getD j 0) > 1e-5 →
      verify_scan lower_res dporft_res n (k : Int) =
        some (false, some ((j : Int), dporft_res.getD j 0, lower_res.getD j 0)) := by
  intro n
  induction n with
  | zero => intro k j _ _ h1 h2; omega
  | succ n ih =>
    intro k j hr hl hkj hjn hok hbad
    rw [verify_scan_succ lower_res dporft_res n k (by omega) (by omega)]
    rcases Nat.eq_or_lt_of_le hkj with h | h
    · subst h
      rw [if_pos hbad]
    · rw [if_neg (hok k (Nat.le_refl k) h)]
      exact ih (k + 1) j hr hl (by omega) (by omega)
        (fun i h1 h2 => hok i (by omega) h2) hbad

theorem verify_results_pass {K : Type} [LinearOrderedField K] (lower_res dporft_res : List K)
    (totalsize : Int) (hr : totalsize ≤ dporft_res.length) (hl : totalsize ≤ lower_res.length)
    (hok : ∀ i : Nat, (i : Int) < totalsize →
      ¬ scaledDiff (dporft_res.getD i 0) (lower_res.getD i 0) > 1e-5) :
    verify_results lower_res dporft_res totalsize = some (true, none) := by
  unfold verify_results
  have := verify_scan_pass lower_res dporft_res totalsize.toNat 0 (by omega) (by omega)
    (fun i _ h2 => hok i (by omega))
  simpa using this

theorem verify_results_fail {K : Type} [LinearOrderedField K] (lower_res dporft_res : List K)
    (totalsize : Int) (j : Nat) (hr : j < dporft_res.length) (hl : j < lower_res.length)
    (hj : (j : Int) < totalsize)
    (hok : ∀ i : Nat, i < j →
      ¬ scaledDiff (dporft_res.getD i 0) (lower_res.getD i 0) > 1e-5)
    (hbad : scaledDiff (dporft_res.getD j 0) (lower_res.getD j 0) > 1e-5) :
    verify_results lower_res dporft_res totalsize =
      some (false, some ((j : Int), dporft_res.getD j 0, lower_res.getD j 0)) := by
  unfold verify_results
  have := verify_scan_fail lower_res dporft_res totalsize.toNat 0 j hr hl
    (Nat.zero_le j) (by omega) (fun i _ h2 => hok i h2) hbad
  simpa using this

theorem scaledDiff_self {K : Type} [LinearOrderedField K] (x : K) : scaledDiff x x = 0 := by
  simp [scaledDiff]

theorem scaledDiff_gt_of_margin {K : Type} [LinearOrderedField K] (r x : K)
    (h : (|r| > 1e-5 ∧ |r - x| > 1e-5 * |r|) ∨ (|r| ≤ 1e-5 ∧ |r - x| > 1e-5) ∨
      (|x| ≤ 1e-5 ∧ |r - x| > 1e-5)) :
    scaledDiff r x > 1e-5 := by
  have hrel : |r| > 1e-5 → |r - x| > 1e-5 * |r| → scaledDiff r x > 1e-5 := by
    intro h1 h2
    unfold scaledDiff
    rw [if_pos h1, abs_div]
    have hpos : (0 : K) < |r| := lt_trans (by norm_num) h1
    exact (lt_div_iff₀ hpos).mpr h2
  have habs : |r| ≤ 1e-5 → |r - x| > 1e-5 → scaledDiff r x > 1e-5 := by
    intro h1 h2
    unfold scaledDiff
    rw [if_neg (not_lt.mpr h1)]
    exact h2
  rcases h with ⟨h1, h2⟩ | ⟨h1, h2⟩ | ⟨h1, h2⟩
  · exact hrel h1 h2
  · exact habs h1 h2
  · rcases le_or_lt |r| 1e-5 with h3 | h3
    · exact habs h3 h2
    · apply hrel h3
      have htri : |r| ≤ |r - x| + |x| := by
        have := abs_add (r - x) x
        simpa using this
      have e : (1e-5 : K) = 1 / 100000 := by norm_num
      rw [e] at h1 h2 ⊢
      have : (0 : K) ≤ |r - x| := abs_nonneg _
      linarith

/-! ## Claims on the verifier -/

/-- Claim C5 (verifier identity). For every array `X` and every `totalsize ≤ |X|`,
`verify_results(X, X, totalsize)` returns `true` and reports no failing index. -/
theorem verify_identity {K : Type} [LinearOrderedField K] (X : List K) (totalsize : Int)
    (h : totalsize ≤ X.length) : verify_results X X totalsize = some (true, none) := by
  apply verify_results_pass X X totalsize h h
  intro i _
  rw [scaledDiff_self]
  norm_num

/-- Witness of C5: a three-element array. -/
theorem verify_identity_witness :
    verify_results ([1, -2, 0] : List ℚ) [1, -2, 0] 3 = some (true, none) :=
  verify_identity [1, -2, 0] 3 (by decide)

/-- Claim C6, counterexample to the claim as stated. With `X = [1]`, `k = 0` and
`r = 1 + 1.000005e-5`, the entry `X[k]` has `|X[k]| > 1e-5` and `r` differs from it by more
than the relative margin `1.0e-5 * |X[k]|`; yet `verify_results(X, X[k := r], 1)` returns
`true`, because the code divides the difference by the reference value `r`, not by `X[k]`. -/
theorem verify_sensitivity_counterexample :
    (|(1 : ℚ)| > 1e-5 ∧ |(1 + 1.000005e-5 : ℚ) - 1| > 1.0e-5 * |(1 : ℚ)|) ∧
      verify_results ([1] : List ℚ) (([1] : List ℚ).set 0 (1 + 1.000005e-5)) 1
        = some (true, none) := by
  refine ⟨⟨by norm_num, by norm_num [abs_of_pos]⟩, ?_⟩
  apply verify_results_pass _ _ 1 (by decide) (by decide)
  intro i hi
  have hi0 : i = 0 := by omega
  subst hi0
  norm_num [scaledDiff, abs_of_pos]

/-- Claim C6, amended (verifier sensitivity). Let the candidate be `X` and let the reference agree
with `X` at every index below `k` and hold `r` at index `k < |X|` (in particular the reference
may be `X` with entry `k` replaced by `r`, or with further entries after `k` perturbed too). If
`r` differs from `X[k]` by more than the relative margin measured against the reference value
`r`, that is `|r - X[k]| > 1e-5 * |r|` when `|r| > 1e-5`, or by more than `1e-5` in absolute
value when `r` or `X[k]` is near zero (`|r| ≤ 1e-5` or `|X[k]| ≤ 1e-5`), then `verify_results`
returns `false` and the index it reports is `k`. -/
theorem verify_sensitivity {K : Type} [LinearOrderedField K] (X reference : List K) (k : Nat)
    (r : K) (hlen : reference.length = X.length) (hk : k < X.length)
    (hbelow : ∀ i, i < k → reference.getD i 0 = X.getD i 0)
    (hr : reference.getD k 0 = r)
    (hmargin : (|r| > 1e-5 ∧ |r - X.getD k 0| > 1e-5 * |r|) ∨
      (|r| ≤ 1e-5 ∧ |r - X.getD k 0| > 1e-5) ∨
      (|X.getD k 0| ≤ 1e-5 ∧ |r - X.getD k 0| > 1e-5)) :
    verify_results X reference (X.length : Int) = some (false, some ((k : Int), r, X.getD k 0)) := by
  rw [← hr]
  apply verify_results_fail X reference (X.length : Int) k (by rw [hlen]; exact hk) hk
    (by exact_mod_cast hk)
  · intro i hi
    rw [hbelow i hi, scaledDiff_self]
    norm_num
  · rw [hr]
    exact scaledDiff_gt_of_margin r _ hmargin

/-- Witness of C6 amended: `X = [1, 2, 3]` with entry 1 replaced by `2.1`. -/
theorem verify_sensitivity_witness :
    verify_results ([1, 2, 3] : List ℚ) (([1, 2, 3] : List ℚ).set 1 2.1)
        ((([1, 2, 3] : List ℚ).length : Nat) : Int)
      = some (false, some (((1 : Nat) : Int), 2.1, ([1, 2, 3] : List ℚ).getD 1 0)) :=
  verify_sensitivity [1, 2, 3] (([1, 2, 3] : List ℚ).set 1 2.1) 1 2.1 (by decide) (by decide)
    (by intro i hi; have h0 : i = 0 := by omega
        subst h0; rfl)
    (by rfl)
    (Or.inl ⟨by norm_num [abs_of_pos], by norm_num [List.getD, abs_of_pos]⟩)

theorem getD_take_of_le {α : Type} (xs : List α) (i j : Nat) (d : α) (h : j ≤ i) :
    (xs.take (i + 1)).getD j d = xs.getD j d := by
  simp [List.getD, List.getElem?_take, Nat.lt_succ_of_le h]

/-- Claim C7 (verifier decision and first-failure report). With `err(i)` as in the specification
(`err_spec`), for equal-length arrays and `totalsize` within their length, `verify_results`
returns a flag `res` and at most one diagnostic `report`, where `res = false` exactly when some
index `i ∈ [0, totalsize)` has `err(i) > 1.0e-5`; when `res = false` the report is the single
record of the least such index (with the reference and candidate values there), and no later
index is examined: the same result is returned on the arrays cut off after that index. When
`res = true` nothing is reported, and `res = true` whenever `totalsize ≤ 0`. -/
theorem verify_results_decision {K : Type} [LinearOrderedField K] (candidate reference : List K)
    (totalsize : Int) (hlen : candidate.length = reference.length)
    (htot : totalsize ≤ reference.length) :
    ∃ res report, verify_results candidate reference totalsize = some (res, report) ∧
      (res = false ↔
        ∃ i : Nat, (i : Int) < totalsize ∧ err_spec candidate reference i > 1.0e-5) ∧
      (res = false → ∃ i : Nat, (i : Int) < totalsize ∧
        err_spec candidate reference i > 1.0e-5 ∧
        (∀ i' : Nat, i' < i → ¬ err_spec candidate reference i' > 1.0e-5) ∧
        report = some ((i : Int), reference.getD i 0, candidate.getD i 0) ∧
        verify_results (candidate.take (i + 1)) (reference.take (i + 1)) totalsize
          = some (res, report)) ∧
      (res = true → report = none) ∧
      (totalsize ≤ 0 → res = true) := by
  have e : (1.0e-5 : K) = 1e-5 := by norm_num
  simp only [e]
  classical
  by_cases hex : ∃ i : Nat, (i : Int) < totalsize ∧ err_spec candidate reference i > 1e-5
  · have hspec := Nat.find_spec hex
    have hmin : ∀ i, i < Nat.find hex → ¬ err_spec candidate reference i > 1e-5 := by
      intro i hi hbad
      exact Nat.find_min hex hi ⟨by omega, hbad⟩
    have hjr : Nat.find hex < reference.length := by omega
    have hjl : Nat.find hex < candidate.length := by omega
    refine ⟨false, _, verify_results_fail candidate reference totalsize (Nat.find hex) hjr hjl
      hspec.1 ?_ ?_, ?_, ?_, ?_, ?_⟩
    · intro i hi
      rw [scaledDiff_eq_err_spec]
      exact hmin i hi
    · rw [scaledDiff_eq_err_spec]; exact hspec.2
    · exact ⟨fun _ => hex, fun _ => rfl⟩
    · intro _
      refine ⟨Nat.find hex, hspec.1, hspec.2, hmin, rfl, ?_⟩
      have h := verify_results_fail (candidate.take (Nat.find hex + 1))
        (reference.take (Nat.find hex + 1)) totalsize (Nat.find hex)
        (by rw [List.length_take]; omega) (by rw [List.length_take]; omega) hspec.1
        (by
          intro i hi
          rw [getD_take_of_le _ _ _ _ (Nat.le_of_lt hi), getD_take_of_le _ _ _ _ (Nat.le_of_lt hi),
            scaledDiff_eq_err_spec]
          exact hmin i hi)
        (by
          rw [getD_take_of_le _ _ _ _ (Nat.le_refl _), getD_take_of_le _ _ _ _ (Nat.le_refl _),
            scaledDiff_eq_err_spec]
          exact hspec.2)
      rw [getD_take_of_le _ _ _ _ (Nat.le_refl _), getD_take_of_le _ _ _ _ (Nat.le_refl _)] at h
      exact h
    · intro h; cases h
    · intro h0
      have := hspec.1
      omega
  · refine ⟨true, none, verify_results_pass candidate reference totalsize htot
      (by rw [hlen]; exact htot) ?_, ?_, ?_, ?_, ?_⟩
    · intro i hi
      rw [scaledDiff_eq_err_spec]
      intro hbad
      exact hex ⟨i, hi, hbad⟩
    · exact ⟨fun h => Bool.noConfusion h, fun h => absurd h hex⟩
    · intro h; cases h
    · intro _; rfl
    · intro _; rfl

/-- Witness of C7: two three-element arrays differing at index 1. -/
theorem verify_results_decision_witness :
    ∃ res report, verify_results ([1, 2, 3] : List ℚ) [1, 2.1, 3.5] 3 = some (res, report) ∧
      (res = false ↔
        ∃ i : Nat, (i : Int) < 3 ∧ err_spec ([1, 2, 3] : List ℚ) [1, 2.1, 3.5] i > 1.0e-5) ∧
      (res = false → ∃ i : Nat, (i : Int) < 3 ∧
        err_spec ([1, 2, 3] : List ℚ) [1, 2.1, 3.5] i > 1.0e-5 ∧
        (∀ i' : Nat, i' < i → ¬ err_spec ([1, 2, 3] : List ℚ) [1, 2.1, 3.5] i' > 1.0e-5) ∧
        report = some ((i : Int), ([1, 2.1, 3.5] : List ℚ).getD i 0,
          ([1, 2, 3] : List ℚ).getD i 0) ∧
        verify_results (([1, 2, 3] : List ℚ).take (i + 1)) (([1, 2.1, 3.5] : List ℚ).take (i + 1))
          3 = some (res, report)) ∧
      (res = true → report = none) ∧
      ((3 : Int) ≤ 0 → res = true) :=
  verify_results_decision [1, 2, 3] [1, 2.1, 3.5] 3 (by decide) (by decide)

/-! ## The generator: the fill loop -/

theorem idx_inj {n r c r' c' : Nat} (hc : c < n) (hc' : c' < n)
    (h : r * n + c = r' * n + c') : r = r' ∧ c = c' := by
  have h1 := div_add_div_mod r c n hc
  have h2 := div_add_div_mod r' c' n hc'
  rw [h] at h1
  exact ⟨by rw [← h1.1, h2.1], by rw [← h1.2, h2.2]⟩

theorem fill_step {K : Type} (Q : K → Prop) (draw : Nat → K) (hQ : ∀ k, Q (draw k))
    (n R C : Nat) (hRC : R ≤ C) (hC : C < n) (st : List K × Nat)
    (h : FillInv Q n R C st) :
    ∃ st', (writeAt st.1 ((R : Int) * (n : Int) + (C : Int)) (draw st.2)).bind
        (fun A => (writeAt A ((C : Int) * (n : Int) + (R : Int)) (draw st.2)).bind
          fun A => some (A, st.2 + 1)) = some st' ∧
      FillInv Q n R (C + 1) st' := by
  obtain ⟨hlen, hcells⟩ := h
  have hR : R < n := by omega
  have h1 : R * n + C < n * n := mul_add_lt_mul hR hC
  have h2 : C * n + R < n * n := mul_add_lt_mul hC hR
  have e1 : (R : Int) * (n : Int) + (C : Int) = ((R * n + C : Nat) : Int) := by push_cast; ring
  have e2 : (C : Int) * (n : Int) + (R : Int) = ((C * n + R : Nat) : Int) := by push_cast; ring
  rw [e1, e2, writeAt_natCast _ _ _ (by rw [hlen]; exact h1)]
  simp only [Option.some_bind]
  rw [writeAt_natCast _ _ _ (by rw [List.length_set, hlen]; exact h2)]
  simp only [Option.some_bind]
  refine ⟨_, rfl, by simp [hlen], ?_⟩
  intro r c hc hrc hdone
  by_cases hcase : r = R ∧ c = C
  · obtain ⟨rfl, rfl⟩ := hcase
    refine ⟨draw st.2, ?_, ?_, hQ _⟩
    · by_cases hd : c * n + r = r * n + c
      · simp [List.getElem?_set, hd, hlen, h1]
      · simp [List.getElem?_set, hd, hlen, h1]
    · simp [List.getElem?_set, hlen, h2]
  · have hdone' : r < R ∨ (r = R ∧ c < C) := by
      rcases hdone with h3 | ⟨h3, h4⟩
      · exact Or.inl h3
      · refine Or.inr ⟨h3, ?_⟩
        have : c ≠ C := fun h5 => hcase ⟨h3, h5⟩
        omega
    obtain ⟨v, hv1, hv2, hv3⟩ := hcells r c hc hrc hdone'
    have hr : r < n := by omega
    have n1 : R * n + C ≠ r * n + c := fun h5 => by
      have := idx_inj hC hc h5; exact hcase ⟨this.1.symm, this.2.symm⟩
    have n2 : C * n + R ≠ r * n + c := fun h5 => by
      have := idx_inj hR hc h5; omega
    have n3 : R * n + C ≠ c * n + r := fun h5 => by
      have := idx_inj hC hr h5; omega
    have n4 : C * n + R ≠ c * n + r := fun h5 => by
      have := idx_inj hR hr h5; exact hcase ⟨this.2.symm, this.1.symm⟩
    refine ⟨v, ?_, ?_, hv3⟩
    · simp only [List.getElem?_set_ne n2, List.getElem?_set_ne n1]; exact hv1
    · simp only [List.getElem?_set_ne n4, List.getElem?_set_ne n3]; exact hv2

theorem fill_symmetric_spec {K : Type} (Q : K → Prop) (draw : Nat → K) (hQ : ∀ k, Q (draw k))
    (n : Nat) (A0 : List K) (hA0 : A0.length = n * n) :
    ∃ st, fill_symmetric draw n A0 = some st ∧ st.1.length = n * n ∧
      ∀ r c, r < n → c < n →
        ∃ v, st.1[r * n + c]? = some v ∧ st.1[c * n + r]? = some v ∧ Q v := by
  unfold fill_symmetric
  have hout := forLoop_inv 0
    (fun row st => forLoop row (fun col st =>
      (writeAt st.1 ((row : Int) * (n : Int) + (col : Int)) (draw st.2)).bind fun A =>
        (writeAt A ((col : Int) * (n : Int) + (row : Int)) (draw st.2)).bind
          fun A => some (A, st.2 + 1)) (n - row) st)
    (fun R st => FillInv Q n R 0 st) n (A0, 0)
    ⟨hA0, fun r c _ _ hd => by omega⟩
    (by
      intro R hR st hinv
      simp only [Nat.zero_add]
      have hin := forLoop_inv R
        (fun col st =>
          (writeAt st.1 ((R : Int) * (n : Int) + (col : Int)) (draw st.2)).bind fun A =>
            (writeAt A ((col : Int) * (n : Int) + (R : Int)) (draw st.2)).bind
              fun A => some (A, st.2 + 1))
        (fun d st => FillInv Q n R (R + d) st) (n - R) st
        ⟨hinv.1, fun r c hc hrc hd => hinv.2 r c hc hrc (by omega)⟩
        (by
          intro d hd st2 hinv2
          exact fill_step Q draw hQ n R (R + d) (by omega) (by omega) st2 hinv2)
      obtain ⟨st', h1, h2⟩ := hin
      refine ⟨st', h1, h2.1, ?_⟩
      intro r c hc hrc hd
      exact h2.2 r c hc hrc (by omega))
  obtain ⟨st, h1, h2, h3⟩ := hout
  refine ⟨st, h1, h2, ?_⟩
  intro r c hr hc
  rcases Nat.le_total r c with hrc | hrc
  · exact h3 r c hc hrc (Or.inl hr)
  · obtain ⟨v, hv1, hv2, hv3⟩ := h3 c r hr hrc (Or.inl hc)
    exact ⟨v, hv2, hv1, hv3⟩

/-! ## The generator: product and diagonal adjustment -/

theorem getD_eq_of_getElem? {α : Type} {xs : List α} {k : Nat} {v : α} (d : α)
    (h : xs[k]? = some v) : xs.getD k d = v := by
  simp [List.getD, h]

/-- Claim C11, counterexample to the claim as stated. With `num_tiles = 2`,
`tile_size = 32768`, `size = 65536` and a grid of four tiles of `32768 * 32768` elements, the
destination index `i * size + j` of the last element is `65536 * 65536 - 1`, above `INT_MAX`:
the `int` expression overflows and `assemble_tiles` yields no matrix to split again. -/
theorem split_assemble_roundtrip_counterexample :
    (1 : Int) ≤ 2 ∧ (1 : Int) ≤ 32768 ∧ (65536 : Int) = 2 * 32768 ∧
      ((List.replicate 4 (List.replicate 1073741824 (0 : ℚ))).length : Int) = 2 * 2 ∧
      (∀ buf ∈ List.replicate 4 (List.replicate 1073741824 (0 : ℚ)),
        (buf.length : Int) = 32768 * 32768) ∧
      ((List.replicate 4294967296 (0 : ℚ)).length : Int) = 65536 * 65536 ∧
      assemble_tiles (List.replicate 4 (List.replicate 1073741824 (0 : ℚ)))
        (List.replicate 4294967296 (0 : ℚ)) 2 32768 65536 false = none := by
  refine ⟨by decide, by decide, by decide, ?_, ?_, ?_, ?_⟩
  · rw [List.length_replicate]; norm_num
  · intro buf hb
    rw [List.eq_of_mem_replicate hb, List.length_replicate]; norm_num
  · rw [List.length_replicate]; norm_num
  · exact assemble_none_of_overflow _ _ 2 32768 65536 false (by decide)

/-- Claim C11, amended (the assembler is inverted by the splitter). For `num_tiles ≥ 1`,
`tile_size ≥ 1`, `size = num_tiles * tile_size` with `size * size ≤ INT_MAX` (so that every
`int` index expression of the code stays in range), either `layRow`, and every tile grid `G` of
`num_tiles²` tiles of `tile_size²` elements each: `assemble_tiles` succeeds on `G` (into any
destination buffer of `size * size` elements), and `split_into_tiles` run on the assembled
matrix (into any pre-allocated grid of the same shape) returns exactly `G`, tile by tile and
element by element. -/
theorem split_assemble_roundtrip {α : Type} (num_tiles tile_size size : Int) (layRow : Bool)
    (G : List (List α)) (out0 : List α) (tiles0 : List (List α))
    (hnt : 1 ≤ num_tiles) (hts : 1 ≤ tile_size) (hsize : size = num_tiles * tile_size)
    (hG : (G.length : Int) = num_tiles * num_tiles)
    (hGbufs : ∀ buf ∈ G, (buf.length : Int) = tile_size * tile_size)
    (hout : (out0.length : Int) = size * size)
    (htiles : (tiles0.length : Int) = num_tiles * num_tiles)
    (hbufs : ∀ buf ∈ tiles0, (buf.length : Int) = tile_size * tile_size)
    (hrange : size * size ≤ INT_MAX) :
    ∃ m, assemble_tiles G out0 num_tiles tile_size size layRow = some m ∧
      split_into_tiles m tiles0 num_tiles tile_size size layRow = some G := by
  obtain ⟨nt, rfl⟩ := Int.eq_ofNat_of_zero_le (by omega : 0 ≤ num_tiles)
  obtain ⟨ts, rfl⟩ := Int.eq_ofNat_of_zero_le (by omega : 0 ≤ tile_size)
  subst hsize
  unfold INT_MAX at hrange
  exact inverse_nat G out0 tiles0 nt ts layRow (by omega) (by omega)
    (gridShape_of_lengths nt ts G hG hGbufs) (by exact_mod_cast hout)
    (gridShape_of_lengths nt ts tiles0 htiles hbufs) (by exact_mod_cast hrange)

/-- Witness of C11 amended: four 2 × 2 tiles, column-block-major. -/
theorem split_assemble_roundtrip_witness :
    ∃ m, assemble_tiles [[1, 2, 5, 6], [9, 10, 13, 14], [3, 4, 7, 8], [11, 12, 15, 16]]
        (List.replicate 16 (0 : ℚ)) 2 2 4 false = some m ∧
      split_into_tiles m (List.replicate 4 (List.replicate 4 (0 : ℚ))) 2 2 4 false
        = some [[1, 2, 5, 6], [9, 10, 13, 14], [3, 4, 7, 8], [11, 12, 15, 16]] :=
  split_assemble_roundtrip 2 2 4 false
    [[1, 2, 5, 6], [9, 10, 13, 14], [3, 4, 7, 8], [11, 12, 15, 16]]
    (List.replicate 16 (0 : ℚ)) (List.replicate 4 (List.replicate 4 (0 : ℚ)))
    (by decide) (by decide) (by decide) (by decide) (by decide) (by decide) (by decide)
    (by decide) (by decide)

/-! ## Reads of the splitter and index safety -/

theorem src_read_natCast (nt ts : Nat) (layRow : Bool) (t i j : Nat) (hnt : 0 < nt)
    (ht : t < nt * nt) (hi : i < ts) (hj : j < ts)
    (hrange : nt * ts * (nt * ts) ≤ 2147483647) :
    offset_tile (nt : Int) (ts : Int) layRow (t : Int)
        = some ((offNat nt ts layRow t : Nat) : Int) ∧
      src_index ((offNat nt ts layRow t : Nat) : Int) (i : Int) ((nt : Int) * (ts : Int))
          (j : Int)
        = some ((offNat nt ts layRow t + i * (nt * ts) + j : Nat) : Int) := by
  have hts : 0 < ts := by omega
  have hlt := offNat_lt nt ts layRow t i j hnt ht hi hj
  have e : (nt : Int) * (ts : Int) = ((nt * ts : Nat) : Int) := by push_cast; ring
  refine ⟨offset_tile_natCast nt ts layRow t (le_trans (sq_tiles_le nt ts hts) hrange) ht
    (by omega), ?_⟩
  rw [e]
  exact src_index_natCast _ i (nt * ts) j (by omega)

/-- Claim C12, counterexample to the claim as stated. With `num_tiles = 1` and
`tile_size = size = 46341`, the offset `2147488280` lies in `[0, size * size)` but exceeds
`INT_MAX`, so no `(t, i, j)` reads it: at `(0, 46340, 46340)`, where it would be read, the
`int` expression `offset_tile + i * size + j` overflows. -/
theorem split_reads_bijective_counterexample :
    (1 : Int) ≤ 1 ∧ (1 : Int) ≤ 46341 ∧ (46341 : Int) = 1 * 46341 ∧
      ((0 : Int) ≤ 2147488280 ∧ (2147488280 : Int) < 46341 * 46341) ∧
      (offset_tile 1 46341 true 0 = some 0 ∧ src_index 0 46340 46341 46340 = none) ∧
      ∀ t i j o : Int, offset_tile 1 46341 true t = some o →
        src_index o i 46341 j ≠ some 2147488280 := by
  refine ⟨by decide, by decide, by decide, by decide, by decide, ?_⟩
  intro t i j o _ h
  have h1 := src_index_eq_some h
  omega

/-- Claim C12, amended (each source element is read exactly once by the splitter). For
`num_tiles ≥ 1`, `tile_size ≥ 1`, `size = num_tiles * tile_size` with
`size * size ≤ INT_MAX` (so that every `int` index expression of the code stays in range) and
either `layRow`, the map sending `(t, i, j)` with `t ∈ [0, num_tiles²)` and
`i, j ∈ [0, tile_size)` to the source index `offset_tile(t) + i * size + j` read by
`split_into_tiles` is defined everywhere and is a bijection onto `[0, size * size)`: it maps
into that range, no offset is read by two different triples, and every offset of the matrix
is read by some triple. -/
theorem split_reads_bijective (num_tiles tile_size size : Int) (layRow : Bool)
    (hnt : 1 ≤ num_tiles) (hts : 1 ≤ tile_size) (hsize : size = num_tiles * tile_size)
    (hrange : size * size ≤ INT_MAX) :
    (∀ t i j : Int, 0 ≤ t → t < num_tiles * num_tiles → 0 ≤ i → i < tile_size →
        0 ≤ j → j < tile_size →
        ∃ o off, offset_tile num_tiles tile_size layRow t = some o ∧
          src_index o i size j = some off ∧ 0 ≤ off ∧ off < size * size) ∧
      (∀ t i j t' i' j' : Int, 0 ≤ t → t < num_tiles * num_tiles → 0 ≤ i → i < tile_size →
        0 ≤ j → j < tile_size → 0 ≤ t' → t' < num_tiles * num_tiles → 0 ≤ i' →
        i' < tile_size → 0 ≤ j' → j' < tile_size →
        ∀ o o' off : Int, offset_tile num_tiles tile_size layRow t = some o →
          offset_tile num_tiles tile_size layRow t' = some o' →
          src_index o i size j = some off → src_index o' i' size j' = some off →
          t = t' ∧ i = i' ∧ j = j') ∧
      (∀ off : Int, 0 ≤ off → off < size * size →
        ∃ t i j o : Int, 0 ≤ t ∧ t < num_tiles * num_tiles ∧ 0 ≤ i ∧ i < tile_size ∧
          0 ≤ j ∧ j < tile_size ∧ offset_tile num_tiles tile_size layRow t = some o ∧
          src_index o i size j = some off) := by
  obtain ⟨nt, rfl⟩ := Int.eq_ofNat_of_zero_le (by omega : 0 ≤ num_tiles)
  obtain ⟨ts, rfl⟩ := Int.eq_ofNat_of_zero_le (by omega : 0 ≤ tile_size)
  subst hsize
  unfold INT_MAX at hrange
  have hrange' : nt * ts * (nt * ts) ≤ 2147483647 := by exact_mod_cast hrange
  have hnt' : 0 < nt := by omega
  have hts' : 0 < ts := by omega
  refine ⟨?_, ?_, ?_⟩
  · intro t i j ht0 ht hi0 hi hj0 hj
    obtain ⟨t, rfl⟩ := Int.eq_ofNat_of_zero_le ht0
    obtain ⟨i, rfl⟩ := Int.eq_ofNat_of_zero_le hi0
    obtain ⟨j, rfl⟩ := Int.eq_ofNat_of_zero_le hj0
    have ht' : t < nt * nt := by exact_mod_cast ht
    have hi' : i < ts := by exact_mod_cast hi
    have hj' : j < ts := by exact_mod_cast hj
    have h := offNat_lt nt ts layRow t i j hnt' ht' hi' hj'
    obtain ⟨h1, h2⟩ := src_read_natCast nt ts layRow t i j hnt' ht' hi' hj' hrange'
    exact ⟨_, _, h1, h2, Int.ofNat_nonneg _, by exact_mod_cast h⟩
  · intro t i j t' i' j' ht0 ht hi0 hi hj0 hj ht0' ht' hi0' hi' hj0' hj' o o' off ho ho' hs hs'
    obtain ⟨t, rfl⟩ := Int.eq_ofNat_of_zero_le ht0
    obtain ⟨i, rfl⟩ := Int.eq_ofNat_of_zero_le hi0
    obtain ⟨j, rfl⟩ := Int.eq_ofNat_of_zero_le hj0
    obtain ⟨t', rfl⟩ := Int.eq_ofNat_of_zero_le ht0'
    obtain ⟨i', rfl⟩ := Int.eq_ofNat_of_zero_le hi0'
    obtain ⟨j', rfl⟩ := Int.eq_ofNat_of_zero_le hj0'
    have ht1 : t < nt * nt := by exact_mod_cast ht
    have ht1' : t' < nt * nt := by exact_mod_cast ht'
    have hi1 : i < ts := by exact_mod_cast hi
    have hi1' : i' < ts := by exact_mod_cast hi'
    have hj1 : j < ts := by exact_mod_cast hj
    have hj1' : j' < ts := by exact_mod_cast hj'
    have hoeq := offset_tile_eq_some nt ts layRow t ho
    have hoeq' := offset_tile_eq_some nt ts layRow t' ho'
    subst hoeq
    subst hoeq'
    rw [(src_read_natCast nt ts layRow t i j hnt' ht1 hi1 hj1 hrange').2] at hs
    rw [(src_read_natCast nt ts layRow t' i' j' hnt' ht1' hi1' hj1' hrange').2] at hs'
    have heq : ((offNat nt ts layRow t + i * (nt * ts) + j : Nat) : Int)
        = ((offNat nt ts layRow t' + i' * (nt * ts) + j' : Nat) : Int) := by
      rw [Option.some.inj hs, Option.some.inj hs']
    have heq' : offNat nt ts layRow t + i * (nt * ts) + j
        = offNat nt ts layRow t' + i' * (nt * ts) + j' := by exact_mod_cast heq
    have h1 := srcCell_offNat nt ts layRow t i j hnt' ht1 hi1 hj1
    have h2 := srcCell_offNat nt ts layRow t' i' j' hnt' ht1' hi1' hj1'
    rw [heq', h2] at h1
    have htt : t' = t := congrArg Prod.fst h1
    have hkk : i' * ts + j' = i * ts + j := congrArg Prod.snd h1
    have hij := idx_inj hj1' hj1 hkk
    refine ⟨by rw [htt], by rw [hij.1], by rw [hij.2]⟩
  · intro off hoff0 hoff
    obtain ⟨off, rfl⟩ := Int.eq_ofNat_of_zero_le hoff0
    have hoff' : off < nt * ts * (nt * ts) := by exact_mod_cast hoff
    obtain ⟨h1, h2, h3⟩ := srcCell_spec nt ts layRow off hts' hoff'
    obtain ⟨hki, hkj, _⟩ := div_mul_add_mod_lt _ ts h2
    obtain ⟨h4, h5⟩ := src_read_natCast nt ts layRow _ _ _ hnt' h1 hki hkj hrange'
    rw [h3] at h5
    exact ⟨((srcCell nt ts layRow off).1 : Nat), ((srcCell nt ts layRow off).2 / ts : Nat),
      ((srcCell nt ts layRow off).2 % ts : Nat), _, Int.ofNat_nonneg _, by exact_mod_cast h1,
      Int.ofNat_nonneg _, by exact_mod_cast hki, Int.ofNat_nonneg _, by exact_mod_cast hkj,
      h4, h5⟩

/-- Witness of C12 amended: 2 × 2 tiles of size 2, row-block-major. -/
theorem split_reads_bijective_witness :
    (∀ t i j : Int, 0 ≤ t → t < 2 * 2 → 0 ≤ i → i < 2 → 0 ≤ j → j < 2 →
        ∃ o off, offset_tile 2 2 true t = some o ∧
          src_index o i 4 j = some off ∧ 0 ≤ off ∧ off < 4 * 4) ∧
      (∀ t i j t' i' j' : Int, 0 ≤ t → t < 2 * 2 → 0 ≤ i → i < 2 → 0 ≤ j → j < 2 →
        0 ≤ t' → t' < 2 * 2 → 0 ≤ i' → i' < 2 → 0 ≤ j' → j' < 2 →
        ∀ o o' off : Int, offset_tile 2 2 true t = some o → offset_tile 2 2 true t' = some o' →
          src_index o i 4 j = some off → src_index o' i' 4 j' = some off →
          t = t' ∧ i = i' ∧ j = j') ∧
      (∀ off : Int, 0 ≤ off → off < 4 * 4 →
        ∃ t i j o : Int, 0 ≤ t ∧ t < 2 * 2 ∧ 0 ≤ i ∧ i < 2 ∧ 0 ≤ j ∧ j < 2 ∧
          offset_tile 2 2 true t = some o ∧ src_index o i 4 j = some off) :=
  split_reads_bijective 2 2 4 true (by decide) (by decide) (by decide) (by decide)

/-- Claim C16, counterexample to the claim as stated. With `num_tiles = 3`,
`tile_size = 15447`, `size = 46341`, the source index of the last element of tile 8,
`offset_tile(8) + 15446 * 46341 + 15446 = 2147488280`, is above `INT_MAX`: the `int`
expression overflows instead of lying in `[0, size * size)`, and so does the destination
index `46340 * 46341 + 46340` of `assemble_tiles`. -/
theorem split_assemble_index_safety_counterexample :
    (1 : Int) ≤ 3 ∧ (1 : Int) ≤ 15447 ∧ (46341 : Int) = 3 * 15447 ∧
      ((0 : Int) ≤ 8 ∧ (8 : Int) < 3 * 3 ∧ (0 : Int) ≤ 15446 ∧ (15446 : Int) < 15447) ∧
      offset_tile 3 15447 true 8 = some 1431689748 ∧
      src_index 1431689748 15446 46341 15446 = none ∧
      ((0 : Int) ≤ 46340 ∧ (46340 : Int) < 46341) ∧
      int_mul_add 46340 46341 46340 = none := by
  decide

/-- Claim C16, amended (index safety of split and assemble). For `num_tiles ≥ 1`,
`tile_size ≥ 1`, `size = num_tiles * tile_size` with `size * size ≤ INT_MAX` and either
`layRow`: (a) for `t ∈ [0, num_tiles²)` and `i, j ∈ [0, tile_size)` the `int` expressions of
`split_into_tiles` do not overflow, the source index `offset_tile(t) + i * size + j` lies in
`[0, size * size)` and the tile-local index `i * tile_size + j` lies in `[0, tile_size²)`;
(b) for `i, j ∈ [0, size)` the `int` expressions of `assemble_tiles` do not overflow, the tile
indices `i_tile * num_tiles + j_tile` and `j_tile * num_tiles + i_tile` lie in
`[0, num_tiles²)`, the local index `i_local * tile_size + j_local` lies in `[0, tile_size²)`
and the destination index `i * size + j` lies in `[0, size * size)`. Hence no access leaves
its buffer: on buffers of these sizes both routines return a result. -/
theorem split_assemble_index_safety {α : Type} (num_tiles tile_size size : Int) (layRow : Bool)
    (M : List α) (tiles0 : List (List α)) (G : List (List α)) (out0 : List α)
    (hnt : 1 ≤ num_tiles) (hts : 1 ≤ tile_size) (hsize : size = num_tiles * tile_size)
    (hM : (M.length : Int) = size * size)
    (htiles : (tiles0.length : Int) = num_tiles * num_tiles)
    (hbufs : ∀ buf ∈ tiles0, (buf.length : Int) = tile_size * tile_size)
    (hG : (G.length : Int) = num_tiles * num_tiles)
    (hGbufs : ∀ buf ∈ G, (buf.length : Int) = tile_size * tile_size)
    (hout : (out0.length : Int) = size * size) (hrange : size * size ≤ INT_MAX) :
    (∀ t i j : Int, 0 ≤ t → t < num_tiles * num_tiles → 0 ≤ i → i < tile_size →
        0 ≤ j → j < tile_size →
        ∃ o src dst, offset_tile num_tiles tile_size layRow t = some o ∧
          src_index o i size j = some src ∧ (0 ≤ src ∧ src < size * size) ∧
          int_mul_add i tile_size j = some dst ∧ (0 ≤ dst ∧ dst < tile_size * tile_size)) ∧
      (∀ i j : Int, 0 ≤ i → i < size → 0 ≤ j → j < size →
        ∃ tileRow tileCol k dst,
          int_mul_add (i.tdiv tile_size) num_tiles (j.tdiv tile_size) = some tileRow ∧
          (0 ≤ tileRow ∧ tileRow < num_tiles * num_tiles) ∧
          int_mul_add (j.tdiv tile_size) num_tiles (i.tdiv tile_size) = some tileCol ∧
          (0 ≤ tileCol ∧ tileCol < num_tiles * num_tiles) ∧
          int_mul_add (i.tmod tile_size) tile_size (j.tmod tile_size) = some k ∧
          (0 ≤ k ∧ k < tile_size * tile_size) ∧
          int_mul_add i size j = some dst ∧ (0 ≤ dst ∧ dst < size * size)) ∧
      (∃ G', split_into_tiles M tiles0 num_tiles tile_size size layRow = some G') ∧
      (∃ m, assemble_tiles G out0 num_tiles tile_size size layRow = some m) := by
  obtain ⟨nt, rfl⟩ := Int.eq_ofNat_of_zero_le (by omega : 0 ≤ num_tiles)
  obtain ⟨ts, rfl⟩ := Int.eq_ofNat_of_zero_le (by omega : 0 ≤ tile_size)
  subst hsize
  unfold INT_MAX at hrange
  have hrange' : nt * ts * (nt * ts) ≤ 2147483647 := by exact_mod_cast hrange
  have hnt' : 0 < nt := by omega
  have hts' : 0 < ts := by omega
  have hnn := sq_tiles_le nt ts hts'
  have hts2 : ts * ts ≤ nt * ts * (nt * ts) := by
    have h1 : ts ≤ nt * ts := Nat.le_mul_of_pos_left ts hnt'
    exact Nat.mul_le_mul h1 h1
  have e : (nt : Int) * (ts : Int) = ((nt * ts : Nat) : Int) := by push_cast; ring
  refine ⟨?_, ?_, ?_, ?_⟩
  · intro t i j ht0 ht hi0 hi hj0 hj
    obtain ⟨t, rfl⟩ := Int.eq_ofNat_of_zero_le ht0
    obtain ⟨i, rfl⟩ := Int.eq_ofNat_of_zero_le hi0
    obtain ⟨j, rfl⟩ := Int.eq_ofNat_of_zero_le hj0
    have ht' : t < nt * nt := by exact_mod_cast ht
    have hi' : i < ts := by exact_mod_cast hi
    have hj' : j < ts := by exact_mod_cast hj
    have h := offNat_lt nt ts layRow t i j hnt' ht' hi' hj'
    have hk : i * ts + j < ts * ts := mul_add_lt_mul hi' hj'
    obtain ⟨h1, h2⟩ := src_read_natCast nt ts layRow t i j hnt' ht' hi' hj' hrange'
    exact ⟨_, _, _, h1, h2, ⟨Int.ofNat_nonneg _, by exact_mod_cast h⟩,
      int_mul_add_natCast i ts j (by omega), ⟨Int.ofNat_nonneg _, by exact_mod_cast hk⟩⟩
  · intro i j hi0 hi hj0 hj
    obtain ⟨i, rfl⟩ := Int.eq_ofNat_of_zero_le hi0
    obtain ⟨j, rfl⟩ := Int.eq_ofNat_of_zero_le hj0
    have hi' : i < nt * ts := by exact_mod_cast hi
    have hj' : j < nt * ts := by exact_mod_cast hj
    have hit : i / ts < nt := Nat.div_lt_of_lt_mul (by rw [Nat.mul_comm ts nt]; exact hi')
    have hjt : j / ts < nt := Nat.div_lt_of_lt_mul (by rw [Nat.mul_comm ts nt]; exact hj')
    have hil : i % ts < ts := Nat.mod_lt _ hts'
    have hjl : j % ts < ts := Nat.mod_lt _ hts'
    have h1 : i / ts * nt + j / ts < nt * nt := mul_add_lt_mul hit hjt
    have h2 : j / ts * nt + i / ts < nt * nt := mul_add_lt_mul hjt hit
    have h3 : i % ts * ts + j % ts < ts * ts := mul_add_lt_mul hil hjl
    have h4 : i * (nt * ts) + j < nt * ts * (nt * ts) := mul_add_lt_mul hi' hj'
    rw [e]
    simp only [← Int.ofNat_tdiv, ← Int.ofNat_tmod]
    exact ⟨_, _, _, _, int_mul_add_natCast _ _ _ (by omega),
      ⟨Int.ofNat_nonneg _, by exact_mod_cast h1⟩,
      int_mul_add_natCast _ _ _ (by omega), ⟨Int.ofNat_nonneg _, by exact_mod_cast h2⟩,
      int_mul_add_natCast _ _ _ (by omega), ⟨Int.ofNat_nonneg _, by exact_mod_cast h3⟩,
      int_mul_add_natCast _ _ _ (by omega), ⟨Int.ofNat_nonneg _, by exact_mod_cast h4⟩⟩
  · obtain ⟨G', h, _⟩ := split_spec M tiles0 nt ts layRow hnt' hts' (by exact_mod_cast hM)
      (gridShape_of_lengths nt ts tiles0 htiles hbufs) hrange'
    exact ⟨G', h⟩
  · obtain ⟨m, h, _⟩ := assemble_spec G out0 nt ts layRow hts'
      (gridShape_of_lengths nt ts G hG hGbufs) (by exact_mod_cast hout) hrange'
    exact ⟨m, h⟩

/-- Witness of C16 amended: the 4 × 4 matrix `1 … 16` and its four 2 × 2 tiles. -/
theorem split_assemble_index_safety_witness :
    (∀ t i j : Int, 0 ≤ t → t < 2 * 2 → 0 ≤ i → i < 2 → 0 ≤ j → j < 2 →
        ∃ o src dst, offset_tile 2 2 true t = some o ∧
          src_index o i 4 j = some src ∧ (0 ≤ src ∧ src < 4 * 4) ∧
          int_mul_add i 2 j = some dst ∧ (0 ≤ dst ∧ dst < 2 * 2)) ∧
      (∀ i j : Int, 0 ≤ i → i < 4 → 0 ≤ j → j < 4 →
        ∃ tileRow tileCol k dst,
          int_mul_add (i.tdiv 2) 2 (j.tdiv 2) = some tileRow ∧
          (0 ≤ tileRow ∧ tileRow < 2 * 2) ∧
          int_mul_add (j.tdiv 2) 2 (i.tdiv 2) = some tileCol ∧
          (0 ≤ tileCol ∧ tileCol < 2 * 2) ∧
          int_mul_add (i.tmod 2) 2 (j.tmod 2) = some k ∧ (0 ≤ k ∧ k < 2 * 2) ∧
          int_mul_add i 4 j = some dst ∧ (0 ≤ dst ∧ dst < 4 * 4)) ∧
      (∃ G', split_into_tiles [1, 2, 3, 4, 5, 6, 7, 8, 9, 10, 11, 12, 13, 14, 15, 16]
        (List.replicate 4 (List.replicate 4 (0 : ℚ))) 2 2 4 true = some G') ∧
      (∃ m, assemble_tiles [[1, 2, 5, 6], [3, 4, 7, 8], [9, 10, 13, 14], [11, 12, 15, 16]]
        (List.replicate 16 (0 : ℚ)) 2 2 4 true = some m) :=
  split_assemble_index_safety 2 2 4 true [1, 2, 3, 4, 5, 6, 7, 8, 9, 10, 11, 12, 13, 14, 15, 16]
    (List.replicate 4 (List.replicate 4 (0 : ℚ)))
    [[1, 2, 5, 6], [3, 4, 7, 8], [9, 10, 13, 14], [11, 12, 15, 16]] (List.replicate 16 (0 : ℚ))
    (by decide) (by decide) (by decide) (by decide) (by decide) (by decide) (by decide)
    (by decide) (by decide) (by decide)

/-! ## No dimension check -/

/-- Claim C13, counterexample to the claim as stated. With `size = 3` and `num_tiles = 2`
(`3 % 2 ≠ 0`, `tile_size = 3 / 2 = 1`), `split_into_tiles` does not fail: from the 3 × 3 matrix
`1 … 9` it returns the four one-element tiles `[1]`, `[2]`, `[3]`, `[4]`, read at the offsets
`0, 1, 2, 3`. -/
theorem dimension_mismatch_counterexample :
    (3 : Int).tmod 2 ≠ 0 ∧ (3 : Int).tdiv 2 = 1 ∧
      split_into_tiles ([1, 2, 3, 4, 5, 6, 7, 8, 9] : List ℚ) (List.replicate 4 [0]) 2 1 3 true
        = some [[1], [2], [3], [4]] := by
  decide

/-- Claim C13, amended (no dimension check is made). Let `num_tiles ≥ 1`, `size ≥ 0` with
`size % num_tiles ≠ 0` and `tile_size = size / num_tiles` rounded down, and let
`num_tiles * num_tiles ≤ INT_MAX` and `size * size ≤ INT_MAX` (so that every `int` index
expression of the code stays in range). `split_into_tiles` does not reject these parameters:
on a matrix of `size * size` elements and a grid of `num_tiles²` buffers of `tile_size²`
elements it returns a tile grid, whose tile `t` holds at local offset `i * tile_size + j` the
element read at source index `offset_tile(t) + i * size + j`. `assemble_tiles` makes no check
either: run on a grid of exactly `num_tiles²` tiles it reaches a tile index outside the grid
(or a division by `tile_size = 0`), an access without defined result, so the embedding yields
no matrix. -/
theorem no_dimension_check {α : Type} (num_tiles tile_size size : Int) (layRow : Bool)
    (M : List α) (tiles0 : List (List α)) (G : List (List α)) (out0 : List α)
    (hnt : 1 ≤ num_tiles) (hsz : 0 ≤ size) (hrem : size.tmod num_tiles ≠ 0)
    (hts : tile_size = size.tdiv num_tiles)
    (hM : (M.length : Int) = size * size)
    (htiles : (tiles0.length : Int) = num_tiles * num_tiles)
    (hbufs : ∀ buf ∈ tiles0, (buf.length : Int) = tile_size * tile_size)
    (hG : (G.length : Int) = num_tiles * num_tiles)
    (hnn : num_tiles * num_tiles ≤ INT_MAX) (hrange : size * size ≤ INT_MAX) :
    (∃ G', split_into_tiles M tiles0 num_tiles tile_size size layRow = some G' ∧
      ∀ t i j : Int, 0 ≤ t → t < num_tiles * num_tiles → 0 ≤ i → i < tile_size →
        0 ≤ j → j < tile_size →
        ∃ o src v, offset_tile num_tiles tile_size layRow t = some o ∧
          src_index o i size j = some src ∧
          readTile G' t (i * tile_size + j) = some v ∧ readAt M src = some v) ∧
      assemble_tiles G out0 num_tiles tile_size size layRow = none := by
  obtain ⟨nt, rfl⟩ := Int.eq_ofNat_of_zero_le (by omega : 0 ≤ num_tiles)
  obtain ⟨sz, rfl⟩ := Int.eq_ofNat_of_zero_le hsz
  rw [← Int.ofNat_tdiv] at hts
  subst hts
  rw [← Int.ofNat_tmod] at hrem
  unfold INT_MAX at hnn hrange
  have hnn' : nt * nt ≤ 2147483647 := by exact_mod_cast hnn
  have hrange' : sz * sz ≤ 2147483647 := by exact_mod_cast hrange
  have hrem' : sz % nt ≠ 0 := by exact_mod_cast hrem
  have hnt' : 0 < nt := by omega
  have hdm : nt * (sz / nt) + sz % nt = sz := Nat.div_add_mod sz nt
  have hlt : nt * (sz / nt) < sz := by omega
  have hM' : M.length = sz * sz := by exact_mod_cast hM
  refine ⟨?_, assemble_none_of_remainder G out0 nt (sz / nt) sz layRow
    (by exact_mod_cast hG) hlt⟩
  obtain ⟨G', hsplit, hshape, hcells⟩ := split_spec_any M tiles0 nt (sz / nt) sz layRow hnt'
    (Nat.le_of_lt hlt) hM' (gridShape_of_lengths nt (sz / nt) tiles0 htiles hbufs) hnn' hrange'
  refine ⟨G', hsplit, ?_⟩
  intro t i j ht0 ht hi0 hi hj0 hj
  obtain ⟨t, rfl⟩ := Int.eq_ofNat_of_zero_le ht0
  obtain ⟨i, rfl⟩ := Int.eq_ofNat_of_zero_le hi0
  obtain ⟨j, rfl⟩ := Int.eq_ofNat_of_zero_le hj0
  have ht' : t < nt * nt := by exact_mod_cast ht
  have hi' : i < sz / nt := by exact_mod_cast hi
  have hj' : j < sz / nt := by exact_mod_cast hj
  have hk : i * (sz / nt) + j < sz / nt * (sz / nt) := mul_add_lt_mul hi' hj'
  have hdm2 := div_add_div_mod i j (sz / nt) hj'
  have hoff := offNat_lt_any nt (sz / nt) sz layRow t i j hnt' (Nat.le_of_lt hlt) ht' hi' hj'
  have hb : offNat nt (sz / nt) layRow t + i * sz + j < M.length := by rw [hM']; exact hoff
  have e1 : (i : Int) * ((sz / nt : Nat) : Int) + (j : Int)
      = ((i * (sz / nt) + j : Nat) : Int) := by push_cast; ring
  refine ⟨_, _, M[offNat nt (sz / nt) layRow t + i * sz + j],
    offset_tile_natCast nt (sz / nt) layRow t hnn' ht' (by omega),
    src_index_natCast _ i sz j (by omega), ?_, ?_⟩
  · rw [e1, readTile_natCast, hcells t _ ht' hk (Or.inl ht'), hdm2.1, hdm2.2]
    exact List.getElem?_eq_getElem _
  · rw [readAt_natCast]
    exact List.getElem?_eq_getElem _

/-- Witness of C13 amended: `size = 5`, `num_tiles = 2`, `tile_size = 2`. -/
theorem no_dimension_check_witness :
    (∃ G', split_into_tiles ((List.range 25).map fun k => (k : ℚ))
        (List.replicate 4 (List.replicate 4 (0 : ℚ))) 2 2 5 false = some G' ∧
      ∀ t i j : Int, 0 ≤ t → t < 2 * 2 → 0 ≤ i → i < 2 → 0 ≤ j → j < 2 →
        ∃ o src v, offset_tile 2 2 false t = some o ∧ src_index o i 5 j = some src ∧
          readTile G' t (i * 2 + j) = some v ∧
          readAt ((List.range 25).map fun k => (k : ℚ)) src = some v) ∧
      assemble_tiles (List.replicate 4 (List.replicate 4 (0 : ℚ))) (List.replicate 25 (0 : ℚ))
        2 2 5 false = none :=
  no_dimension_check 2 2 5 false ((List.range 25).map fun k => (k : ℚ))
    (List.replicate 4 (List.replicate 4 (0 : ℚ))) (List.replicate 4 (List.replicate 4 (0 : ℚ)))
    (List.replicate 25 (0 : ℚ)) (by decide) (by decide) (by decide) (by decide) (by decide)
    (by decide) (by decide) (by decide) (by decide) (by decide)

/-! ## The two tile layouts -/

theorem swapped_tile_offNat (nt ts : Nat) (t : Nat) (hnt : 0 < nt) (ht : t < nt * nt) :
    t % nt * nt + t / nt < nt * nt ∧
      offNat nt ts true (t % nt * nt + t / nt) = offNat nt ts false t := by
  have hdiv : t / nt < nt := Nat.div_lt_of_lt_mul ht
  have hmod : t % nt < nt := Nat.mod_lt _ hnt
  have h := div_add_div_mod (t % nt) (t / nt) nt hdiv
  refine ⟨mul_add_lt_mul hmod hdiv, ?_⟩
  simp only [offNat, if_true, Bool.false_eq_true, if_false, h.1, h.2]

/-- Claim C18, counterexample to the claim as stated. With `num_tiles = 3`,
`tile_size = 15447`, `size = 46341` and a matrix of `46341 * 46341` elements, the run with
`layRow = false` produces no tiles to compare: the source index of the last element,
`2147488280`, is above `INT_MAX` and the `int` expression overflows. -/
theorem layouts_differ_by_permutation_counterexample :
    (1 : Int) ≤ 3 ∧ (1 : Int) ≤ 15447 ∧ (46341 : Int) = 3 * 15447 ∧
      ((List.replicate 2147488281 (0 : ℚ)).length : Int) = 46341 * 46341 ∧
      ((List.replicate 9 (List.replicate 238609809 (0 : ℚ))).length : Int) = 3 * 3 ∧
      (∀ buf ∈ List.replicate 9 (List.replicate 238609809 (0 : ℚ)),
        (buf.length : Int) = 15447 * 15447) ∧
      split_into_tiles (List.replicate 2147488281 (0 : ℚ))
        (List.replicate 9 (List.replicate 238609809 (0 : ℚ))) 3 15447 46341 false = none := by
  refine ⟨by decide, by decide, by decide, ?_, ?_, ?_, ?_⟩
  · rw [List.length_replicate]; norm_num
  · rw [List.length_replicate]; norm_num
  · intro buf hb
    rw [List.eq_of_mem_replicate hb, List.length_replicate]; norm_num
  · exact split_none_of_overflow _ _ 3 15447 46341 false (by decide) (by decide) (by decide)

/-- Claim C18, amended (the two layouts differ by a permutation of the tile indices). For
`num_tiles ≥ 1`, `tile_size ≥ 1`, `size = num_tiles * tile_size` with
`size * size ≤ INT_MAX` (so that every `int` index expression of the code stays in range)
and every matrix `M` of `size * size` elements, both runs of `split_into_tiles` succeed, and for every tile index
`t ∈ [0, num_tiles²)` the tile `t` produced with `layRow = false` is the same buffer, element
for element, as the tile `(t % num_tiles) * num_tiles + t / num_tiles` produced with
`layRow = true`. -/
theorem layouts_differ_by_permutation {α : Type} (num_tiles tile_size size : Int)
    (M : List α) (tilesF tilesT : List (List α))
    (hnt : 1 ≤ num_tiles) (hts : 1 ≤ tile_size) (hsize : size = num_tiles * tile_size)
    (hM : (M.length : Int) = size * size)
    (htilesF : (tilesF.length : Int) = num_tiles * num_tiles)
    (hbufsF : ∀ buf ∈ tilesF, (buf.length : Int) = tile_size * tile_size)
    (htilesT : (tilesT.length : Int) = num_tiles * num_tiles)
    (hbufsT : ∀ buf ∈ tilesT, (buf.length : Int) = tile_size * tile_size)
    (hrange : size * size ≤ INT_MAX) :
    ∃ GF GT, split_into_tiles M tilesF num_tiles tile_size size false = some GF ∧
      split_into_tiles M tilesT num_tiles tile_size size true = some GT ∧
      ∀ t : Int, 0 ≤ t → t < num_tiles * num_tiles →
        ∃ tile, readAt GF t = some tile ∧
          readAt GT ((t % num_tiles) * num_tiles + t / num_tiles) = some tile ∧
          (tile.length : Int) = tile_size * tile_size := by
  obtain ⟨nt, rfl⟩ := Int.eq_ofNat_of_zero_le (by omega : 0 ≤ num_tiles)
  obtain ⟨ts, rfl⟩ := Int.eq_ofNat_of_zero_le (by omega : 0 ≤ tile_size)
  subst hsize
  have hnt' : 0 < nt := by omega
  have hM' : M.length = nt * ts * (nt * ts) := by exact_mod_cast hM
  unfold INT_MAX at hrange
  have hrange' : nt * ts * (nt * ts) ≤ 2147483647 := by exact_mod_cast hrange
  obtain ⟨GF, hF, hshapeF, hcellsF⟩ := split_spec M tilesF nt ts false hnt' (by omega) hM'
    (gridShape_of_lengths nt ts tilesF htilesF hbufsF) hrange'
  obtain ⟨GT, hT, hshapeT, hcellsT⟩ := split_spec M tilesT nt ts true hnt' (by omega) hM'
    (gridShape_of_lengths nt ts tilesT htilesT hbufsT) hrange'
  refine ⟨GF, GT, hF, hT, ?_⟩
  intro t ht0 ht
  obtain ⟨t, rfl⟩ := Int.eq_ofNat_of_zero_le ht0
  have ht' : t < nt * nt := by exact_mod_cast ht
  obtain ⟨hs, hoff⟩ := swapped_tile_offNat nt ts t hnt' ht'
  obtain ⟨bF, hbF, hlF⟩ := hshapeF.2 t ht'
  obtain ⟨bT, hbT, hlT⟩ := hshapeT.2 _ hs
  have e : ((t : Int) % (nt : Int)) * (nt : Int) + (t : Int) / (nt : Int)
      = ((t % nt * nt + t / nt : Nat) : Int) := by push_cast; ring
  have hb : bF = bT := by
    apply List.ext_getElem?
    intro k
    rcases Nat.lt_or_ge k (ts * ts) with hk | hk
    · have h1 := hcellsF t k ht' hk (Or.inl ht')
      have h2 := hcellsT _ k hs hk (Or.inl hs)
      rw [hoff] at h2
      simp only [tileGet, hbF, hbT, Option.some_bind] at h1 h2
      rw [h1, h2]
    · rw [List.getElem?_eq_none (by omega), List.getElem?_eq_none (by omega)]
  refine ⟨bF, ?_, ?_, by exact_mod_cast hlF⟩
  · rw [readAt_natCast]; exact hbF
  · rw [e, readAt_natCast, hb]; exact hbT

/-- Witness of C18 amended: the 4 × 4 matrix `1 … 16` in 2 × 2 tiles. -/
theorem layouts_differ_by_permutation_witness :
    ∃ GF GT, split_into_tiles [1, 2, 3, 4, 5, 6, 7, 8, 9, 10, 11, 12, 13, 14, 15, 16]
        (List.replicate 4 (List.replicate 4 (0 : ℚ))) 2 2 4 false = some GF ∧
      split_into_tiles [1, 2, 3, 4, 5, 6, 7, 8, 9, 10, 11, 12, 13, 14, 15, 16]
        (List.replicate 4 (List.replicate 4 (0 : ℚ))) 2 2 4 true = some GT ∧
      ∀ t : Int, 0 ≤ t → t < 2 * 2 →
        ∃ tile, readAt GF t = some tile ∧ readAt GT ((t % 2) * 2 + t / 2) = some tile ∧
          (tile.length : Int) = 2 * 2 :=
  layouts_differ_by_permutation 2 2 4 [1, 2, 3, 4, 5, 6, 7, 8, 9, 10, 11, 12, 13, 14, 15, 16]
    (List.replicate 4 (List.replicate 4 (0 : ℚ))) (List.replicate 4 (List.replicate 4 (0 : ℚ)))
    (by decide) (by decide) (by decide) (by decide) (by decide) (by decide) (by decide)
    (by decide) (by decide)

/-! ## Further claims on the generator and the verifier -/

/-- Claim C19 (the verifier is not symmetric in its two array arguments). With
`a = [1]` and `b = [1 + 1.000005e-5]`, `verify_results(a, b, 1)` (`a` the candidate, `b` the
reference) returns `true`, while `verify_results(b, a, 1)` returns `false` and reports index 0:
the difference `1.000005e-5` is divided by the reference, which is `b[0] > 1` in the first
call and `a[0] = 1` in the second. -/
theorem verify_not_symmetric :
    ∃ a b : List ℚ, a.length = b.length ∧
      verify_results a b (a.length : Int) = some (true, none) ∧
      verify_results b a (a.length : Int)
        = some (false, some (0, (1 : ℚ), (1 + 1.000005e-5 : ℚ))) := by
  refine ⟨[1], [1 + 1.000005e-5], rfl, ?_, ?_⟩
  · apply verify_results_pass _ _ _ (by decide) (by decide)
    intro i hi
    have hi0 : i = 0 := by
      have : (i : Int) < 1 := hi
      omega
    subst hi0
    norm_num [scaledDiff, abs_of_pos]
  · have h := verify_results_fail ([1 + 1.000005e-5] : List ℚ) [1] 1 0 (by decide) (by decide)
      (by decide) (fun i hi => absurd hi (Nat.not_lt_zero i))
      (by norm_num [scaledDiff, abs_of_pos, abs_of_neg])
    simpa using h

/-! ## Range of the random fill -/

theorem rand_unit_range {K : Type} [LinearOrderedField K] (RAND_MAX raw : Int)
    (hmax : 0 < RAND_MAX) (h0 : 0 ≤ raw) (h1 : raw ≤ RAND_MAX) :
    (0 : K) ≤ rand_unit RAND_MAX raw ∧ (rand_unit RAND_MAX raw : K) ≤ 1 ∧
      ((rand_unit RAND_MAX raw : K) < 1 ↔ raw < RAND_MAX) := by
  have hpos : (0 : K) < (RAND_MAX : K) := by exact_mod_cast hmax
  have hraw : (0 : K) ≤ (raw : K) := by exact_mod_cast h0
  have hle : (raw : K) ≤ (RAND_MAX : K) := by exact_mod_cast h1
  unfold rand_unit
  refine ⟨div_nonneg hraw (le_of_lt hpos), (div_le_one hpos).mpr hle, ?_⟩
  rw [div_lt_one hpos]
  exact Int.cast_lt

/-- Claim C15, counterexample to the claim as stated. With `RAND_MAX = 2147483647` and a
generator that returns `RAND_MAX` (a result inside `[0, RAND_MAX]`), the fill loop for
`matrix_size = 1` writes the entry `RAND_MAX / RAND_MAX = 1`, which is not strictly less
than 1. -/
theorem fill_range_counterexample :
    (0 : Int) ≤ 2147483647 ∧ (2147483647 : Int) ≤ 2147483647 ∧
      fill_symmetric (fun _ => (rand_unit 2147483647 2147483647 : ℚ)) 1 [0] = some ([1], 1) ∧
      ¬ (([1] : List ℚ).getD 0 0 < 1) := by
  refine ⟨by decide, by decide, ?_, by simp⟩
  simp [fill_symmetric, forLoop, writeAt, rand_unit]

/-- Claim C15, amended (range of the random fill). For `RAND_MAX > 0` and generator results
in `[0, RAND_MAX]`, the fill loop succeeds and every entry it writes into `A`, computed as
`rand_r(&seeds) / RAND_MAX`, lies in the closed interval `[0, 1]`; an entry is strictly less
than 1 exactly when the generator result is less than `RAND_MAX`. After the fill loop
`A[r*n + c] = A[c*n + r]` for all `r, c ∈ [0, n)`. -/
theorem fill_range_closed {K : Type} [LinearOrderedField K] (RAND_MAX : Int) (raw : Nat → Int)
    (uninit : Nat → K) (matrix_size : Nat) (hmax : 0 < RAND_MAX)
    (hraw : ∀ k, 0 ≤ raw k ∧ raw k ≤ RAND_MAX) :
    ∃ st, fill_symmetric (fun k => (rand_unit RAND_MAX (raw k) : K)) matrix_size
        ((List.range (matrix_size * matrix_size)).map uninit) = some st ∧
      st.1.length = matrix_size * matrix_size ∧
      ∀ r c, r < matrix_size → c < matrix_size →
        (∃ k, st.1.getD (r * matrix_size + c) 0 = rand_unit RAND_MAX (raw k) ∧
          (st.1.getD (r * matrix_size + c) 0 < 1 ↔ raw k < RAND_MAX)) ∧
        0 ≤ st.1.getD (r * matrix_size + c) 0 ∧ st.1.getD (r * matrix_size + c) 0 ≤ 1 ∧
        st.1.getD (r * matrix_size + c) 0 = st.1.getD (c * matrix_size + r) 0 := by
  obtain ⟨st, hfill, hlen, hcells⟩ := fill_symmetric_spec
    (fun v : K => ∃ k, v = rand_unit RAND_MAX (raw k))
    (fun k => (rand_unit RAND_MAX (raw k) : K)) (fun k => ⟨k, rfl⟩) matrix_size
    ((List.range (matrix_size * matrix_size)).map uninit) (by simp)
  refine ⟨st, hfill, hlen, ?_⟩
  intro r c hr hc
  obtain ⟨v, hv1, hv2, k, hk⟩ := hcells r c hr hc
  obtain ⟨h0, h1, h2⟩ := @rand_unit_range K _ RAND_MAX (raw k) hmax (hraw k).1 (hraw k).2
  rw [getD_eq_of_getElem? 0 hv1, getD_eq_of_getElem? 0 hv2, hk]
  exact ⟨⟨k, rfl, h2⟩, h0, h1, rfl⟩

/-- Witness of C15 amended: `RAND_MAX = 2147483647`, a generator returning `5` at every call,
`matrix_size = 2`. -/
theorem fill_range_closed_witness :
    ∃ st, fill_symmetric (fun _ : Nat => (rand_unit 2147483647 5 : ℚ)) 2
        ((List.range (2 * 2)).map (fun _ : Nat => (0 : ℚ))) = some st ∧
      st.1.length = 2 * 2 ∧
      ∀ r c, r < 2 → c < 2 →
        (∃ _k : Nat, st.1.getD (r * 2 + c) 0 = rand_unit 2147483647 5 ∧
          (st.1.getD (r * 2 + c) 0 < 1 ↔ (5 : Int) < 2147483647)) ∧
        0 ≤ st.1.getD (r * 2 + c) 0 ∧ st.1.getD (r * 2 + c) 0 ≤ 1 ∧
        st.1.getD (r * 2 + c) 0 = st.1.getD (c * 2 + r) 0 :=
  fill_range_closed 2147483647 (fun _ : Nat => (5 : Int)) (fun _ : Nat => (0 : ℚ)) 2
    (by decide) (fun _ => ⟨by simp, by simp⟩)

/-! ## The Pascal matrix -/

theorem foldl_append_eq {α : Type} (rows : List (List α)) :
    ∀ acc : List α, rows.foldl (fun flat row => flat ++ row) acc
      = acc ++ rows.foldl (fun flat row => flat ++ row) [] := by
  induction rows with
  | nil => intro acc; simp
  | cons r rs ih =>
    intro acc
    simp only [List.foldl_cons, List.nil_append]
    rw [ih (acc ++ r), ih r, List.append_assoc]

theorem flatten_spec {α : Type} (n : Nat) (rows : List (List α))
    (hrows : ∀ row ∈ rows, row.length = n) :
    (rows.foldl (fun flat row => flat ++ row) []).length = rows.length * n ∧
      ∀ i j, j < n →
        (rows.foldl (fun flat row => flat ++ row) [])[i * n + j]? = tileGet rows i j := by
  induction rows with
  | nil => exact ⟨by simp, fun i j _ => by simp [tileGet]⟩
  | cons r rs ih =>
    have hr : r.length = n := hrows r (List.mem_cons_self r rs)
    obtain ⟨ihlen, ihget⟩ := ih (fun row hrow => hrows row (List.mem_cons_of_mem r hrow))
    simp only [List.foldl_cons, List.nil_append]
    rw [foldl_append_eq rs r]
    refine ⟨?_, ?_⟩
    · rw [List.length_append, ihlen, hr, List.length_cons]; ring
    · intro i j hj
      cases i with
      | zero =>
        rw [Nat.zero_mul, Nat.zero_add, List.getElem?_append_left (by omega)]
        simp [tileGet]
      | succ i =>
        have hle : r.length ≤ (i + 1) * n + j := by
          rw [hr]; have : (i + 1) * n = i * n + n := by ring
          omega
        have hsub : (i + 1) * n + j - r.length = i * n + j := by
          rw [hr]; have : (i + 1) * n = i * n + n := by ring
          omega
        rw [List.getElem?_append_right hle, hsub, ihget i j hj]
        simp [tileGet]

theorem pascal_step {T : Type} [AddMonoidWithOne T] (n I J : Nat) (hI : I < n) (hJ : J < n)
    (ms : List (List T)) (h : PascalInv n I J ms) :
    ∃ ms', (if (I : Int) = 0 ∨ (J : Int) = 0 then writeTile ms (I : Int) (J : Int) (1 : T)
        else
          (readTile ms (I : Int) ((J : Int) - 1)).bind fun left =>
            (readTile ms ((I : Int) - 1) (J : Int)).bind fun up =>
              writeTile ms (I : Int) (J : Int) (left + up)) = some ms' ∧
      PascalInv n I (J + 1) ms' := by
  obtain ⟨⟨hlen, hrows⟩, hcells⟩ := h
  have hIlen : I < ms.length := by rw [hlen]; exact hI
  have hbuf : ms[I]? = some ms[I] := List.getElem?_eq_getElem hIlen
  have hk : J < (ms[I]).length := by rw [hrows _ (List.getElem_mem hIlen)]; exact hJ
  have hkey : ∀ v : T, v = (((I + J).choose I : Nat) : T) →
      writeTile ms (I : Int) (J : Int) v = some (ms.set I ((ms[I]).set J v)) ∧
        PascalInv n I (J + 1) (ms.set I ((ms[I]).set J v)) := by
    intro v hv
    refine ⟨writeTile_natCast ms I J v _ hbuf hk, ⟨by simpa using hlen, ?_⟩, ?_⟩
    · intro row hrow
      rcases List.mem_or_eq_of_mem_set hrow with h1 | h1
      · exact hrows row h1
      · rw [h1, List.length_set]; exact hrows _ (List.getElem_mem hIlen)
    · intro i j hi hj hdone
      rw [tileGet_set ms I J v _ hbuf hk]
      by_cases hc : i = I ∧ j = J
      · obtain ⟨rfl, rfl⟩ := hc
        rw [if_pos ⟨rfl, rfl⟩, hv]
      · rw [if_neg hc]
        apply hcells i j hi hj
        rcases hdone with h1 | ⟨h1, h2⟩
        · exact Or.inl h1
        · refine Or.inr ⟨h1, ?_⟩
          have : j ≠ J := fun h3 => hc ⟨h1, h3⟩
          omega
  by_cases h0 : (I : Int) = 0 ∨ (J : Int) = 0
  · rw [if_pos h0]
    have hone : (1 : T) = (((I + J).choose I : Nat) : T) := by
      rcases h0 with h1 | h1
      · have : I = 0 := by exact_mod_cast h1
        subst this; simp
      · have : J = 0 := by exact_mod_cast h1
        subst this; simp
    obtain ⟨h1, h2⟩ := hkey 1 hone
    exact ⟨_, h1, h2⟩
  · rw [if_neg h0]
    have hI0 : I ≠ 0 := fun h1 => h0 (Or.inl (by exact_mod_cast h1))
    have hJ0 : J ≠ 0 := fun h1 => h0 (Or.inr (by exact_mod_cast h1))
    obtain ⟨a, rfl⟩ := Nat.exists_eq_succ_of_ne_zero hI0
    obtain ⟨b, rfl⟩ := Nat.exists_eq_succ_of_ne_zero hJ0
    have e1 : ((b + 1 : Nat) : Int) - 1 = (b : Int) := by push_cast; ring
    have e2 : ((a + 1 : Nat) : Int) - 1 = (a : Int) := by push_cast; ring
    have hleft := hcells (a + 1) b hI (by omega) (Or.inr ⟨rfl, by omega⟩)
    have hup := hcells a (b + 1) (by omega) hJ (Or.inl (by omega))
    rw [e1, e2, readTile_natCast, readTile_natCast, hleft, hup]
    simp only [Option.some_bind]
    have hsum : ((((a + 1 + b).choose (a + 1) : Nat) : T) + (((a + (b + 1)).choose a : Nat) : T))
        = ((((a + 1 + (b + 1)).choose (a + 1) : Nat)) : T) := by
      rw [← Nat.cast_add]
      congr 1
      have h3 : a + 1 + (b + 1) = (a + b + 1) + 1 := by ring
      have h4 : a + 1 + b = a + b + 1 := by ring
      have h5 : a + (b + 1) = a + b + 1 := by ring
      have hp : (a + b + 1 + 1).choose (a + 1)
          = (a + b + 1).choose a + (a + b + 1).choose (a + 1) := Nat.choose_succ_succ _ _
      rw [h3, h4, h5, hp]
      exact Nat.add_comm _ _
    obtain ⟨h1, h2⟩ := hkey _ hsum
    exact ⟨_, h1, h2⟩

theorem pascal_loops {T : Type} [AddMonoidWithOne T] (n : Nat) :
    ∃ ms : List (List T),
      forLoop 0 (fun i matrix =>
        forLoop 0 (fun j matrix =>
          if (i : Int) = 0 ∨ (j : Int) = 0 then writeTile matrix i j (1 : T)
          else
            (readTile matrix i ((j : Int) - 1)).bind fun left =>
              (readTile matrix ((i : Int) - 1) j).bind fun up =>
                writeTile matrix i j (left + up))
          n matrix)
        n (List.replicate n (List.replicate n (0 : T))) = some ms ∧
      PascalInv n n 0 ms := by
  apply forLoop_inv 0 _ (fun I ms => PascalInv n I 0 ms)
  · refine ⟨⟨by simp, ?_⟩, fun i j _ _ hd => by omega⟩
    intro row hrow
    rw [List.eq_of_mem_replicate hrow, List.length_replicate]
  · intro I hI ms hinv
    simp only [Nat.zero_add]
    have hin := forLoop_inv 0
      (fun j matrix =>
        if (I : Int) = 0 ∨ (j : Int) = 0 then writeTile matrix (I : Int) (j : Int) (1 : T)
        else
          (readTile matrix (I : Int) ((j : Int) - 1)).bind fun left =>
            (readTile matrix ((I : Int) - 1) (j : Int)).bind fun up =>
              writeTile matrix (I : Int) (j : Int) (left + up))
      (fun J ms => PascalInv n I J ms) n ms hinv
      (by
        intro J hJ ms2 hinv2
        simp only [Nat.zero_add]
        exact pascal_step n I J hI hJ ms2 hinv2)
    obtain ⟨ms', h1, h2⟩ := hin
    refine ⟨ms', h1, h2.1, ?_⟩
    intro i j hi hj hd
    apply h2.2 i j hi hj
    rcases hd with h3 | ⟨_, h4⟩
    · rcases Nat.lt_or_ge i I with h5 | h5
      · exact Or.inl h5
      · exact Or.inr ⟨by omega, hj⟩
    · omega

theorem pascal_nat {T : Type} [AddMonoidWithOne T] (n : Nat) :
    ∃ v : List T, generate_pascal_matrix (n : Int) = some v ∧ v.length = n * n ∧
      ∀ i j, i < n → j < n → v[i * n + j]? = some (((i + j).choose i : Nat) : T) := by
  obtain ⟨ms, hloops, ⟨hlen, hrows⟩, hcells⟩ := @pascal_loops T _ n
  obtain ⟨hflen, hfget⟩ := flatten_spec n ms hrows
  refine ⟨ms.foldl (fun flat row => flat ++ row) [], ?_, by rw [hflen, hlen], ?_⟩
  · unfold generate_pascal_matrix
    have hneg : ¬ ((n : Int) < 0) := by omega
    simp only [if_neg hneg, Int.toNat_natCast]
    rw [hloops]
    rfl
  · intro i j hi hj
    rw [hfget i j hj, hcells i j hi hj (Or.inl hi)]

/-- Claim C17 (Pascal matrix closed form). For every `n ≥ 0`, `generate_pascal_matrix(n)`,
over an element type with exact addition, returns a vector of length `n * n` whose element at
offset `i * n + j` is the binomial coefficient `C(i + j, i)` for all `i, j ∈ [0, n)`;
consequently the element at `i * n + j` equals the element at `j * n + i`, and the first row
and the first column are all 1. -/
theorem pascal_closed_form {T : Type} [AddMonoidWithOne T] (n : Int) (hn : 0 ≤ n) :
    ∃ v : List T, generate_pascal_matrix n = some v ∧ (v.length : Int) = n * n ∧
      (∀ i j : Nat, (i : Int) < n → (j : Int) < n →
        readAt v ((i : Int) * n + (j : Int)) = some (((i + j).choose i : Nat) : T)) ∧
      (∀ i j : Nat, (i : Int) < n → (j : Int) < n →
        readAt v ((i : Int) * n + (j : Int)) = readAt v ((j : Int) * n + (i : Int))) ∧
      (∀ j : Nat, (j : Int) < n →
        readAt v (0 * n + (j : Int)) = some 1 ∧ readAt v ((j : Int) * n + 0) = some 1) := by
  obtain ⟨m, rfl⟩ := Int.eq_ofNat_of_zero_le hn
  obtain ⟨v, hgen, hlen, hcells⟩ := @pascal_nat T _ m
  have hread : ∀ i j : Nat, (i : Int) < (m : Int) → (j : Int) < (m : Int) →
      readAt v ((i : Int) * (m : Int) + (j : Int)) = some (((i + j).choose i : Nat) : T) := by
    intro i j hi hj
    have e : (i : Int) * (m : Int) + (j : Int) = ((i * m + j : Nat) : Int) := by push_cast; ring
    rw [e, readAt_natCast]
    exact hcells i j (by exact_mod_cast hi) (by exact_mod_cast hj)
  refine ⟨v, hgen, by rw [hlen]; push_cast; ring, hread, ?_, ?_⟩
  · intro i j hi hj
    rw [hread i j hi hj, hread j i hj hi, Nat.choose_symm_add, Nat.add_comm i j]
  · intro j hj
    have hpos : (0 : Int) < (m : Int) := lt_of_le_of_lt (Int.ofNat_nonneg j) hj
    have h1 := hread 0 j (by exact_mod_cast hpos) hj
    have h2 := hread j 0 hj (by exact_mod_cast hpos)
    simp only [Nat.cast_zero, Nat.zero_add, Nat.add_zero, Nat.choose_zero_right,
      Nat.choose_self, Nat.cast_one] at h1 h2
    exact ⟨h1, h2⟩

/-- Witness of C17: `n = 3` over the integers. -/
theorem pascal_closed_form_witness :
    ∃ v : List Int, generate_pascal_matrix 3 = some v ∧ (v.length : Int) = 3 * 3 ∧
      (∀ i j : Nat, (i : Int) < 3 → (j : Int) < 3 →
        readAt v ((i : Int) * 3 + (j : Int)) = some (((i + j).choose i : Nat) : Int)) ∧
      (∀ i j : Nat, (i : Int) < 3 → (j : Int) < 3 →
        readAt v ((i : Int) * 3 + (j : Int)) = readAt v ((j : Int) * 3 + (i : Int))) ∧
      (∀ j : Nat, (j : Int) < 3 →
        readAt v (0 * 3 + (j : Int)) = some 1 ∧ readAt v ((j : Int) * 3 + 0) = some 1) :=
  pascal_closed_form 3 (by decide)

end MatrixUtil
